import Mathlib

/-!
Verification of the cccatalog loader core
(`util/loader/sql.py` and `provider_api_scripts/raw_pixel.py`).

The Python/SQL code is shallowly embedded: the staging and catalog tables
become lists of rows, Postgres `jsonb` values become the inductive `Jsonb`
type, SQL `NULL` becomes `Option`, and `NOW()` is passed in as an explicit
timestamp argument.  Each SQL statement of the source is translated into an
executable Lean function, and the claimed properties are proved (or refuted
at concrete inputs) about those functions.
-/

namespace CcCatalog

/-- Postgres `jsonb` values.  Objects are association lists; Postgres keeps
object keys unique and canonically ordered, which the operations below
preserve up to order of keys. -/
inductive Jsonb where
  | null
  | bool (b : Bool)
  | num (n : Int)
  | str (s : String)
  | arr (elems : List Jsonb)
  | obj (fields : List (String × Jsonb))

deriving Repr

mutual

def jeq : Jsonb → Jsonb → Bool
  | .null, .null => true
  | .bool a, .bool b => a == b
  | .num a, .num b => a == b
  | .str a, .str b => a == b
  | .arr xs, .arr ys => jeqList xs ys
  | .obj xs, .obj ys => jeqObj xs ys
  | _, _ => false

def jeqList : List Jsonb → List Jsonb → Bool
  | [], [] => true
  | x :: xs, y :: ys => jeq x y && jeqList xs ys
  | _, _ => false

def jeqObj : List (String × Jsonb) → List (String × Jsonb) → Bool
  | [], [] => true
  | (k, v) :: xs, (k2, v2) :: ys => k == k2 && jeq v v2 && jeqObj xs ys
  | _, _ => false

end

mutual

def jeq_eq : (a b : Jsonb) → (jeq a b = true ↔ a = b)
  | .null, b => by cases b <;> simp [jeq]
  | .bool a, b => by cases b <;> simp [jeq]
  | .num a, b => by cases b <;> simp [jeq]
  | .str a, b => by cases b <;> simp [jeq]
  | .arr xs, b => by
    cases b <;> simp [jeq]
    case arr ys => exact jeqList_eq xs ys
  | .obj xs, b => by
    cases b <;> simp [jeq]
    case obj ys => exact jeqObj_eq xs ys

def jeqList_eq : (xs ys : List Jsonb) → (jeqList xs ys = true ↔ xs = ys)
  | [], ys => by cases ys <;> simp [jeqList]
  | x :: xs, [] => by simp [jeqList]
  | x :: xs, y :: ys => by
    simp [jeqList, jeq_eq x y, jeqList_eq xs ys]

def jeqObj_eq : (xs ys : List (String × Jsonb)) → (jeqObj xs ys = true ↔ xs = ys)
  | [], ys => by cases ys <;> simp [jeqObj]
  | x :: xs, [] => by simp [jeqObj]
  | (k, v) :: xs, (k2, v2) :: ys => by
    simp [jeqObj, jeq_eq v v2, jeqObj_eq xs ys, and_assoc]

end

instance : DecidableEq Jsonb := fun a b => decidable_of_iff _ (jeq_eq a b)

/-- `jsonb_strip_nulls`: deletes all object fields with a `null` value,
recursively; `null` array elements are untouched. -/
def jsonbStripNulls : Jsonb → Jsonb
  | .null => .null
  | .bool b => .bool b
  | .num n => .num n
  | .str s => .str s
  | .arr xs => .arr (stripArr xs)
  | .obj kvs => .obj (stripObj kvs)
where
  stripArr : List Jsonb → List Jsonb
    | [] => []
    | x :: xs => jsonbStripNulls x :: stripArr xs
  stripObj : List (String × Jsonb) → List (String × Jsonb)
    | [] => []
    | (_, .null) :: kvs => stripObj kvs
    | (k, v) :: kvs => (k, jsonbStripNulls v) :: stripObj kvs

/-- Right-biased merge of two jsonb objects' field lists: fields of `ys`
overwrite same-named fields of `xs` (the semantics of `jsonb || jsonb` on
two objects). -/
def jsonbObjMerge (xs ys : List (String × Jsonb)) : List (String × Jsonb) :=
  xs.filter (fun kv => !(ys.any (fun kv2 => kv2.1 == kv.1))) ++ ys

/-- Viewing a jsonb value as array elements for `||`: non-arrays become
single-element arrays. -/
def jsonbAsElems : Jsonb → List Jsonb
  | .arr xs => xs
  | x => [x]

/-- The jsonb concatenation operator `||`: two objects merge (right wins);
all other combinations concatenate as arrays. -/
def jsonbConcat (a b : Jsonb) : Jsonb :=
  match a, b with
  | .obj xs, .obj ys => .obj (jsonbObjMerge xs ys)
  | _, _ => .arr (jsonbAsElems a ++ jsonbAsElems b)

/-- First-match lookup of a top-level object key. -/
def jLookup (kvs : List (String × Jsonb)) (k : String) : Option Jsonb :=
  match kvs with
  | [] => none
  | (k', v) :: rest => if k' == k then some v else jLookup rest k

/-- `jsonb ? text`: does the string exist as a top-level object key, an
array string element, or equal the scalar string? -/
def jsonbExists (j : Jsonb) (s : String) : Bool :=
  match j with
  | .obj kvs => kvs.any (fun kv => kv.1 == s)
  | .arr xs => xs.any (fun x => x == Jsonb.str s)
  | .str s' => s' == s
  | _ => false

/-- Deduplication of aggregated values as performed by
`jsonb_agg(DISTINCT x)`: duplicates by full jsonb equality collapse to
one.  Postgres evaluates aggregate `DISTINCT` by sorting, so it emits
the survivors in jsonb btree order, whereas this model keeps them in
first-occurrence order: the two agree exactly on the resulting *set* of
elements and on nothing finer.  Accordingly every theorem stated over
`pgDistinct` output is order-insensitive — membership, `toFinset`,
length as the set's cardinality — or uses `pgDistinct l == l` purely as
a duplicate-freeness test, which holds precisely when `l` has no
duplicate elements and so does not depend on the survivor order. -/
def pgDistinctAux (seen : List Jsonb) : List Jsonb → List Jsonb
  | [] => []
  | x :: xs =>
    if x ∈ seen then pgDistinctAux seen xs
    else x :: pgDistinctAux (x :: seen) xs

def pgDistinct (xs : List Jsonb) : List Jsonb := pgDistinctAux [] xs

/-- SQL `COALESCE` on two nullable values. -/
def sqlCoalesce (a b : Option α) : Option α :=
  match a with
  | some v => some v
  | none => b

/-- The `_merge_jsonb_objects` update expression of
`upsert_records_to_image_table`:
`COALESCE(jsonb_strip_nulls(old.c) || jsonb_strip_nulls(EXCLUDED.c),
EXCLUDED.c, old.c)`.  `jsonb_strip_nulls` and `||` are strict, so the first
arm is SQL `NULL` whenever either side is. -/
def mergeJsonbObjects (old new : Option Jsonb) : Option Jsonb :=
  match old, new with
  | some o, some n => some (jsonbConcat (jsonbStripNulls o) (jsonbStripNulls n))
  | none, some n => some n
  | some o, none => some o
  | none, none => none

/-- The `_merge_jsonb_arrays` update expression of
`upsert_records_to_image_table`:
`COALESCE((SELECT jsonb_agg(DISTINCT x) FROM
jsonb_array_elements(old.c || EXCLUDED.c) t(x)), EXCLUDED.c, old.c)`.
Tag columns hold SQL `NULL` or a jsonb array; the aggregate over zero rows
is SQL `NULL`, so an empty concatenation falls through to `EXCLUDED.c`. -/
def mergeJsonbArrays (old new : Option (List Jsonb)) : Option (List Jsonb) :=
  match old, new with
  | some o, some n =>
    match o ++ n with
    | [] => new
    | x :: xs => some (pgDistinct (x :: xs))
  | none, some n => some n
  | some o, none => some o
  | none, none => none

/-- One row of the intermediate (staging) loading table, with the columns
created by `create_loading_table`.  Every column is nullable. -/
structure LoadRow where
  foreign_id : Option String
  landing_url : Option String
  direct_url : Option String
  thumbnail : Option String
  width : Option Int
  height : Option Int
  filesize : Option Int
  license : Option String
  license_version : Option String
  creator : Option String
  creator_url : Option String
  title : Option String
  meta_data : Option Jsonb
  tags : Option (List Jsonb)
  watermarked : Option Bool
  provider : Option String
  source : Option String
  ingestion_type : Option String

deriving DecidableEq, Repr

/-- One row of the persistent `image` catalog table: the loading columns
plus `created_on`, `updated_on`, `last_synced` (timestamps, modelled as
naturals) and the `removed` soft-delete flag. -/
structure ImageRow where
  created_on : Nat
  updated_on : Nat
  ingestion_type : Option String
  provider : Option String
  source : Option String
  foreign_id : Option String
  landing_url : Option String
  direct_url : Option String
  thumbnail : Option String
  width : Option Int
  height : Option Int
  filesize : Option Int
  license : Option String
  license_version : Option String
  creator : Option String
  creator_url : Option String
  title : Option String
  last_synced : Nat
  removed : Bool
  meta_data : Option Jsonb
  tags : Option (List Jsonb)
  watermarked : Option Bool

deriving DecidableEq, Repr

/-- The upsert's conflict target `(provider, md5(foreign_identifier))`,
with md5 treated as injective.  A unique index never matches on SQL
`NULL`, so a row takes part in conflicts only when both columns are
non-null. -/
def imageKey? (r : ImageRow) : Option (String × String) :=
  match r.provider, r.foreign_id with
  | some p, some f => some (p, f)
  | _, _ => none

def loadKey? (b : LoadRow) : Option (String × String) :=
  match b.provider, b.foreign_id with
  | some p, some f => some (p, f)
  | _, _ => none

def conflictsWith (r : ImageRow) (b : LoadRow) : Bool :=
  match imageKey? r, loadKey? b with
  | some k1, some k2 => k1 == k2
  | _, _ => false

/-- The `_newest_non_null` update expression:
`column = COALESCE(EXCLUDED.column, old.column)`. -/
def newestNonNull (excluded old : Option α) : Option α :=
  sqlCoalesce excluded old

/-- The `DO UPDATE SET` clause of `upsert_records_to_image_table` applied
to one conflicting pair: timestamps and `removed` are reset, `provider`,
`foreign_id` and `created_on` are untouched, scalar columns coalesce
incoming-then-existing, `meta_data` is object-merged and `tags`
array-merged. -/
def mergeImageRow (now : Nat) (old : ImageRow) (new : LoadRow) : ImageRow :=
  { old with
    updated_on := now
    last_synced := now
    removed := false
    ingestion_type := newestNonNull new.ingestion_type old.ingestion_type
    source := newestNonNull new.source old.source
    landing_url := newestNonNull new.landing_url old.landing_url
    direct_url := newestNonNull new.direct_url old.direct_url
    thumbnail := newestNonNull new.thumbnail old.thumbnail
    width := newestNonNull new.width old.width
    height := newestNonNull new.height old.height
    filesize := newestNonNull new.filesize old.filesize
    license := newestNonNull new.license old.license
    license_version := newestNonNull new.license_version old.license_version
    creator := newestNonNull new.creator old.creator
    creator_url := newestNonNull new.creator_url old.creator_url
    title := newestNonNull new.title old.title
    watermarked := newestNonNull new.watermarked old.watermarked
    meta_data := mergeJsonbObjects old.meta_data new.meta_data
    tags := mergeJsonbArrays old.tags new.tags }

/-- The `INSERT` column list of `upsert_records_to_image_table`:
timestamps set to `NOW()`, `removed` to false, everything else taken from
the staging row. -/
def insertImageRow (now : Nat) (b : LoadRow) : ImageRow :=
  { created_on := now
    updated_on := now
    ingestion_type := b.ingestion_type
    provider := b.provider
    source := b.source
    foreign_id := b.foreign_id
    landing_url := b.landing_url
    direct_url := b.direct_url
    thumbnail := b.thumbnail
    width := b.width
    height := b.height
    filesize := b.filesize
    license := b.license
    license_version := b.license_version
    creator := b.creator
    creator_url := b.creator_url
    title := b.title
    last_synced := now
    removed := false
    meta_data := b.meta_data
    tags := b.tags
    watermarked := b.watermarked }

/-- `INSERT ... ON CONFLICT ... DO UPDATE` for a single staging row:
update the conflicting catalog row in place when one exists, append a new
row otherwise. -/
def upsertRow (now : Nat) (cat : List ImageRow) (b : LoadRow) : List ImageRow :=
  if cat.any (fun r => conflictsWith r b) then
    cat.map (fun r => if conflictsWith r b then mergeImageRow now r b else r)
  else
    cat ++ [insertImageRow now b]

/-- `upsert_records_to_image_table`: the single upsert statement processes
every staging row in order against the catalog. -/
def upsertRecordsToImageTable (now : Nat) (cat : List ImageRow)
    (batch : List LoadRow) : List ImageRow :=
  batch.foldl (upsertRow now) cat

/-! ### Staging cleaner (`_clean_intermediate_table_data`) -/

/-- SQL equality of two nullable text values: `NULL = x` is never true. -/
def sqlEqOpt (a b : Option String) : Bool :=
  match a, b with
  | some x, some y => x == y
  | _, _ => false

/-- The join condition of the dedup `DELETE`:
`p1.provider = p2.provider AND p1.foreign_identifier = p2.foreign_identifier`. -/
def dupMatch (p1 p2 : LoadRow) : Bool :=
  sqlEqOpt p1.provider p2.provider && sqlEqOpt p1.foreign_id p2.foreign_id

/-- `DELETE FROM t p1 USING t p2 WHERE p1.ctid < p2.ctid AND ...`:
a row is deleted when a physically later row with the same (non-null)
provider and foreign identifier exists in the statement's snapshot. -/
def dedupDelete : List LoadRow → List LoadRow
  | [] => []
  | r :: rest =>
    if rest.any (dupMatch r) then dedupDelete rest
    else r :: dedupDelete rest

/-- The four null-removing `DELETE` statements of
`_clean_intermediate_table_data`, in source order. -/
def removeNullRequired (t : List LoadRow) : List LoadRow :=
  ((((t.filter (fun r => r.direct_url.isSome)).filter
      (fun r => r.license.isSome)).filter
      (fun r => r.landing_url.isSome)).filter
      (fun r => r.foreign_id.isSome))

/-- `_clean_intermediate_table_data`: drop rows with null required fields,
then deduplicate by identity key. -/
def cleanIntermediateTableData (t : List LoadRow) : List LoadRow :=
  dedupDelete (removeNullRequired t)

/-! ### Staging loader (`load_local_data_to_intermediate_table`) -/

/-- `_delete_malformed_row_in_file`: enumerate the lines and write back
every line whose 1-based index differs from `line_number`. -/
def deleteMalformedRowInFile (lines : List String) (line_number : Nat) :
    List String :=
  go 0 lines
where
  go (index : Nat) : List String → List String
    | [] => []
    | line :: rest =>
      if index + 1 != line_number then line :: go (index + 1) rest
      else go (index + 1) rest

/-- The external bulk loader (`postgres.bulk_load`, an out-of-scope
collaborator): Postgres `COPY` parses sequentially and reports the 1-based
number of the first malformed line, `malformed` being the row-level parse
check. -/
def firstMalformedLine (malformed : String → Bool) (lines : List String) :
    Option Nat :=
  if lines.any malformed then some (lines.findIdx malformed + 1) else none

/-- The `while not load_successful and max_rows_to_skip >= 0` loop body:
one iteration per permitted attempt; a failed attempt deletes the reported
line and retries.  Returns the file as finally loaded and the
`load_successful` flag. -/
def loadAttemptLoop (malformed : String → Bool) :
    Nat → List String → List String × Bool
  | 0, lines => (lines, false)
  | n + 1, lines =>
    match firstMalformedLine malformed lines with
    | none => (lines, true)
    | some k => loadAttemptLoop malformed n (deleteMalformedRowInFile lines k)

/-- `load_local_data_to_intermediate_table` (scheduling and the Postgres
hook stripped): the counter is decremented in `finally` on every
iteration, so a starting value of `maxRowsToSkip ≥ 0` admits
`maxRowsToSkip + 1` iterations; on exhaustion without success it raises
`InvalidTextRepresentation`.  On success the loaded rows are the surviving
lines (cleaning then operates on the staging table). -/
def loadLocalDataToIntermediateTable (malformed : String → Bool)
    (maxRowsToSkip : Int) (lines : List String) :
    Except String (List String) :=
  match loadAttemptLoop malformed (maxRowsToSkip + 1).toNat lines with
  | (loaded, true) => .ok loaded
  | (_, false) =>
    .error "InvalidTextRepresentation: Exceeded the maximum number of allowed defective rows"

/-! ### Sub-provider reclassification passes

The lookup tables (`prov.FLICKR_SUB_PROVIDERS` and friends) live in
`util/loader/provider_details.py`, which is not among the sources; the
passes are parametrized by the table contents instead, exactly as the
temporary tables of the code are populated from them. -/

/-- Python string interpolation of a fetched SQL value:
`f'{x}'` renders SQL `NULL` (Python `None`) as the text `None`. -/
def pyStrOfOpt : Option String → String
  | none => "None"
  | some s => s

/-- The shared `UPDATE ... SET source = '<sub>' WHERE provider =
'<default>' AND MD5(foreign_identifier) = MD5('<fid>')` statement, md5
injective; a `NULL` foreign identifier never equals the literal. -/
def applySourceUpdate (defaultProvider : String) (cat : List ImageRow)
    (op : String × String) : List ImageRow :=
  cat.map fun r =>
    if r.provider == some defaultProvider && r.foreign_id == some op.1 then
      { r with source := some op.2 }
    else r

/-- The `SELECT ... INNER JOIN` of `update_flickr_sub_providers`:
catalog rows with the default provider joined to the temporary
(creator_url, sub_provider) table on equal creator URL, yielding
(interpolated foreign id, sub-provider) pairs. -/
def flickrSelection (tempTable : List (String × String)) (d : String)
    (cat : List ImageRow) : List (String × String) :=
  cat.flatMap fun r =>
    if r.provider == some d then
      tempTable.filterMap fun e =>
        if sqlEqOpt r.creator_url (some e.1) then
          some (pyStrOfOpt r.foreign_id, e.2)
        else none
    else []

/-- `update_flickr_sub_providers`: select once, then run one `UPDATE`
per selected record, in order. -/
def updateFlickrSubProviders (tempTable : List (String × String))
    (d : String) (cat : List ImageRow) : List ImageRow :=
  (flickrSelection tempTable d cat).foldl (applySourceUpdate d) cat

/-- Key access on a jsonb object (`->` with a text key): `NULL` on
non-objects and missing keys. -/
def jsonbGetKey (j : Jsonb) (k : String) : Option Jsonb :=
  match j with
  | .obj kvs => jLookup kvs k
  | _ => none

/-- The europeana `SELECT`: rows with the default provider whose
`meta_data -> 'dataProvider'` matches a temp-table entry under the `?`
operator, yielding (foreign id, dataProvider jsonb, sub_provider).  The
temporary table is populated from the sub-provider mapping, whose
entries are (sub_provider name, data_provider marker) pairs; the join is
on the marker. -/
def europeanaSelection (subProviders : List (String × String)) (d : String)
    (cat : List ImageRow) : List (Option String × Jsonb × String) :=
  cat.flatMap fun r =>
    if r.provider == some d then
      match r.meta_data.bind (fun m => jsonbGetKey m "dataProvider") with
      | some dp =>
        subProviders.filterMap fun e =>
          if jsonbExists dp e.2 then some (r.foreign_id, dp, e.1) else none
      | none => []
    else []

/-- The per-record body of `update_europeana_sub_providers`:
`json.loads` the extracted `dataProvider` text (arrays and objects
round-trip; a scalar value raises), build the set of eligible
sub-providers by Python membership, raise on more than one, assert
exactly one equal to the joined sub-provider, else emit the update. -/
def europeanaRowAction (subProviders : List (String × String))
    (row : Option String × Jsonb × String) :
    Except String (String × String) :=
  let check (eligible : List (String × String)) :
      Except String (String × String) :=
    match eligible with
    | _ :: _ :: _ =>
      .error ("More than one sub-provider identified for the image with foreign ID "
        ++ pyStrOfOpt row.1)
    | [] => .error "AssertionError: len(eligible_sub_providers) == 1"
    | [e] =>
      if e.1 == row.2.2 then .ok (pyStrOfOpt row.1, row.2.2)
      else .error "AssertionError: eligible_sub_providers.pop() == sub_provider"
  match row.2.1 with
  | .arr xs =>
    check (subProviders.filter (fun sp => xs.any (fun x => x == Jsonb.str sp.2)))
  | .obj kvs =>
    check (subProviders.filter (fun sp => kvs.any (fun kv => kv.1 == sp.2)))
  | _ => .error "ValueError: json.loads on a scalar dataProvider value"

/-- Sequential processing of the selected records: each record either
raises (aborting the pass) or issues its `UPDATE`. -/
def runSourceUpdates (d : String) (action : α → Except String (String × String)) :
    List ImageRow → List α → Except String (List ImageRow)
  | cat, [] => .ok cat
  | cat, row :: rest =>
    match action row with
    | .error e => .error e
    | .ok op => runSourceUpdates d action (applySourceUpdate d cat op) rest

/-- `update_europeana_sub_providers`: the temporary table is populated
from the same sub-provider mapping that the per-record check consults. -/
def updateEuropeanaSubProviders (subProviders : List (String × String))
    (d : String) (cat : List ImageRow) : Except String (List ImageRow) :=
  runSourceUpdates d (europeanaRowAction subProviders) cat
    (europeanaSelection subProviders d cat)

/-- Rendering a jsonb value to text, as `->>` does for non-string values
(string escaping elided; unit codes are plain strings in practice). -/
def jsonbRender : Jsonb → String
  | .null => "null"
  | .bool b => cond b "true" "false"
  | .num n => toString n
  | .str s => "\"" ++ s ++ "\""
  | .arr xs => "[" ++ jsonbRenderElems xs ++ "]"
  | .obj kvs => "\x7b" ++ jsonbRenderFields kvs ++ "\x7d"
where
  jsonbRenderElems : List Jsonb → String
    | [] => ""
    | [x] => jsonbRender x
    | x :: y :: xs => jsonbRender x ++ ", " ++ jsonbRenderElems (y :: xs)
  jsonbRenderFields : List (String × Jsonb) → String
    | [] => ""
    | [(k, v)] => "\"" ++ k ++ "\": " ++ jsonbRender v
    | (k, v) :: y :: xs =>
      "\"" ++ k ++ "\": " ++ jsonbRender v ++ ", " ++ jsonbRenderFields (y :: xs)

/-- `->>`: text extraction; jsonb `null` becomes SQL `NULL`, strings are
unquoted, other values render as their JSON text. -/
def pgTextOf : Jsonb → Option String
  | .null => none
  | .str s => some s
  | j => some (jsonbRender j)

/-- `meta_data ->> 'unit_code'` of a catalog row. -/
def smithUnitCode (r : ImageRow) : Option String :=
  (r.meta_data.bind (fun m => jsonbGetKey m "unit_code")).bind pgTextOf

/-- The smithsonian `SELECT`: rows whose provider and source both still
hold the default value, with the `unit_code` text from `meta_data`. -/
def smithsonianSelection (d : String) (cat : List ImageRow) :
    List (Option String × Option String) :=
  cat.filterMap fun r =>
    if r.provider == some d && r.source == some d then
      some (r.foreign_id, smithUnitCode r)
    else none

/-- The per-record body of `update_smithsonian_sub_providers`: the first
sub-provider whose unit-code set contains the row's unit code wins; an
unmatched (or `NULL`) unit code raises. -/
def smithsonianRowAction (subProviders : List (String × List String))
    (row : Option String × Option String) :
    Except String (String × String) :=
  match subProviders.find? (fun sp =>
      match row.2 with
      | some u => sp.2.contains u
      | none => false) with
  | none => .error ("An unknown unit code value " ++ pyStrOfOpt row.2 ++ " encountered ")
  | some sp => .ok (pyStrOfOpt row.1, sp.1)

/-- `update_smithsonian_sub_providers`. -/
def updateSmithsonianSubProviders (subProviders : List (String × List String))
    (d : String) (cat : List ImageRow) : Except String (List ImageRow) :=
  runSourceUpdates d (smithsonianRowAction subProviders) cat
    (smithsonianSelection d cat)

/-! ### Record normalizer (`provider_api_scripts/raw_pixel.py`) -/

/-- One raw provider payload as consumed by `_process_image_data`: the
dictionary fields the function reads.  `none` is an absent key (or JSON
null). -/
structure RawImage where
  freecc0 : Bool
  id : Option String
  url : Option String
  image_opengraph : Option String
  image_400 : Option String
  image_title : Option String
  artist_names : Option String
  keywords_raw : Option String

deriving DecidableEq, Repr

/-- Python truthiness of an optional string: `None` and `""` are falsy. -/
def pyTruthy : Option String → Bool
  | none => false
  | some s => !s.isEmpty

/-- `_get_foreign_id_url`. -/
def getForeignIdUrl (image : RawImage) : Option String × Option String :=
  if image.freecc0 then (some (image.id.getD ""), image.url)
  else (none, none)

/-- The characters before the first occurrence of `c`. -/
def beforeFirstChar (c : Char) : List Char → List Char
  | [] => []
  | x :: xs => if x = c then [] else x :: beforeFirstChar c xs

/-- The characters after the first occurrence of `c`, if any. -/
def afterFirstChar (c : Char) : List Char → Option (List Char)
  | [] => none
  | x :: xs => if x = c then some xs else afterFirstChar c xs

/-- Splitting on every occurrence of `c`. -/
def splitOnChar (c : Char) : List Char → List (List Char)
  | [] => [[]]
  | x :: xs =>
    if x = c then [] :: splitOnChar c xs
    else
      match splitOnChar c xs with
      | [] => [[x]]
      | g :: gs => (x :: g) :: gs

/-- `urlparse(url).query`: the text after the first `?`, the fragment
(from the first `#`) stripped first. -/
def queryStringOf (url : String) : List Char :=
  match afterFirstChar '?' (beforeFirstChar '#' url.toList) with
  | some q => q
  | none => []

/-- `parse_qs` over the query string: fields split on `&`, each split on
its first `=`; fields without `=` or with a blank value are dropped
(`keep_blank_values=False`); percent-decoding is elided. -/
def parseQs (query : List Char) : List (List Char × List Char) :=
  (splitOnChar '&' query).filterMap fun field =>
    match afterFirstChar '=' field with
    | none => none
    | some v => if v.isEmpty then none else some (beforeFirstChar '=' field, v)

/-- `parse_qs(...).get(key, [])[0]`: the first value for the key, or an
`IndexError` from indexing the empty default list. -/
def pyGetFirstParam (q : List (List Char × List Char)) (k : List Char) :
    Except String (List Char) :=
  match (q.filter (fun p => p.1 = k)).map Prod.snd with
  | [] => .error "IndexError: list index out of range"
  | v :: _ => .ok v

/-- `_get_image_properties`: `none` models the `[None, None, None, None]`
return for a falsy `image_opengraph`; a URL lacking a `w` or `h` query
parameter raises. -/
def getImageProperties (image : RawImage) :
    Except String (Option (String × String × String × String)) :=
  match image.image_opengraph with
  | some img_url =>
    if !img_url.isEmpty then
      match pyGetFirstParam (parseQs (queryStringOf img_url)) ['w'] with
      | .error e => .error e
      | .ok width =>
        match pyGetFirstParam (parseQs (queryStringOf img_url)) ['h'] with
        | .error e => .error e
        | .ok height =>
          .ok (some (img_url, String.mk width, String.mk height,
            image.image_400.getD ""))
    else .ok none
  | none => .ok none

/-- `_get_title_owner`. -/
def getTitleOwner (image : RawImage) : String × String :=
  (image.image_title.getD "",
    (((image.artist_names.getD "").replace "(Source)" "").trim))

/-- `_get_tags`: split `keywords_raw` on commas, strip whitespace, and
drop license-boilerplate keywords. -/
def getTags (image : RawImage) : List String :=
  if pyTruthy image.keywords_raw then
    ((image.keywords_raw.getD "").splitOn ",").filterMap fun word =>
      let t := word.trim
      if t == "cc0" || t == "creative commons" || t == "creative commons 0" then
        none
      else some t
  else []

/-- Modelled from the spec: `image_store.add_item` (module
`common/storage/image.py`, not among the sources) produces one canonical
record from the validated fields; the spec's Record Normalizer contract
is "produce a CanonicalRecord or signal reject". -/
structure CanonicalRecord where
  foreign_landing_url : String
  image_url : String
  license_ : String
  license_version : String
  foreign_identifier : String
  width : Option String
  height : Option String
  title : Option String
  raw_tags : List String
  creator : String
  thumbnail_url : String

deriving DecidableEq, Repr

/-- `str(x) if x else None` on a parse result. -/
def pySomeIfTruthy (s : String) : Option String :=
  if s.isEmpty then none else some s

/-- `_process_image_data`: reject (`.ok none`) when the landing page or
the opengraph image URL is unrecoverable, otherwise build the canonical
record; exceptions escape as `.error`. -/
def processImageData (image : RawImage) :
    Except String (Option CanonicalRecord) :=
  let license := "cc0"
  let version := "1.0"
  let (foreign_id, foreign_url) := getForeignIdUrl image
  if !pyTruthy foreign_url then .ok none
  else
    match getImageProperties image with
    | .error e => .error e
    | .ok none => .ok none
    | .ok (some (img_url, width, height, thumbnail)) =>
      let (title, owner) := getTitleOwner image
      let tags := getTags image
      .ok (some
        { foreign_landing_url := foreign_url.getD ""
          image_url := img_url
          license_ := license
          license_version := version
          foreign_identifier := pyStrOfOpt foreign_id
          width := pySomeIfTruthy width
          height := pySomeIfTruthy height
          title := pySomeIfTruthy title
          raw_tags := tags
          creator := owner
          thumbnail_url := thumbnail })

/-! ## Helper lemmas -/

/-- The tag multiset that a nullable tags column denotes: `NULL` and the
empty array both denote no tags. -/
def tagElems (t : Option (List Jsonb)) : List Jsonb := t.getD []

/-- A raw payload whose opengraph image URL carries an `h` query
parameter but no `w` parameter. -/
def rawImageMissingWidthParam : RawImage :=
  { freecc0 := true
    id := some "1053108"
    url := some "https://www.rawpixel.com/image/1053108"
    image_opengraph := some "https://images.rawpixel.com/image_png?h=100"
    image_400 := some "https://images.rawpixel.com/image_400"
    image_title := some "Vintage rose"
    artist_names := some "Unknown (Source)"
    keywords_raw := some "rose, cc0" }

/-- Membership of a row in the identity-key group `(p, f)` (SQL equality:
a `NULL` provider or foreign identifier belongs to no group). -/
def hasKey (p f : String) (r : LoadRow) : Bool :=
  sqlEqOpt r.provider (some p) && sqlEqOpt r.foreign_id (some f)

/-- Two staging rows sharing the identity key `(flickr, 100)` but with
different titles; physical order: `stagingRowEarlier` first. -/
def stagingRowEarlier : LoadRow :=
  { foreign_id := some "100"
    landing_url := some "https://flickr.com/photo/100"
    direct_url := some "https://live.staticflickr.com/100.jpg"
    thumbnail := none
    width := none
    height := none
    filesize := none
    license := some "by"
    license_version := some "2.0"
    creator := none
    creator_url := none
    title := some "first copy"
    meta_data := none
    tags := none
    watermarked := none
    provider := some "flickr"
    source := some "flickr"
    ingestion_type := none }

def stagingRowLater : LoadRow :=
  { stagingRowEarlier with title := some "second copy" }

/-- Lookup into a nullable metadata value when it is an object. -/
def metaLookup (m : Option Jsonb) (k : String) : Option Jsonb :=
  match m with
  | some (.obj kvs) => jLookup kvs k
  | _ => none

/-- The non-null value a side contributes for a key after
`jsonb_strip_nulls`: the (recursively stripped) value when present and
non-null, nothing otherwise. -/
def cleanLookup (kvs : List (String × Jsonb)) (k : String) : Option Jsonb :=
  match jLookup kvs k with
  | some v => if v = Jsonb.null then none else some (jsonbStripNulls v)
  | none => none

/-- The claim's three clauses, stated verbatim over the merge of two
object-valued metadata columns. -/
def c3ClaimedProperty (o n : List (String × Jsonb)) : Prop :=
  match mergeJsonbObjects (some (.obj o)) (some (.obj n)) with
  | some (.obj m) =>
      (∀ k v, jLookup o k = some v → jLookup n k = none → jLookup m k = some v)
      ∧ (∀ k v, jLookup n k = some v → jLookup m k = some v)
      ∧ (∀ k, (jLookup o k = some Jsonb.null ∨ jLookup n k = some Jsonb.null)
          → jLookup m k = none)
  | _ => False

/-- A concrete catalog row whose metadata holds a non-null `artist` and
a null `x` field. -/
def imageRowForC3 : ImageRow :=
  { created_on := 1
    updated_on := 1
    ingestion_type := none
    provider := some "rawpixel"
    source := some "rawpixel"
    foreign_id := some "42"
    landing_url := some "https://www.rawpixel.com/image/42"
    direct_url := some "https://images.rawpixel.com/42.jpg"
    thumbnail := none
    width := some 800
    height := none
    filesize := none
    license := some "cc0"
    license_version := some "1.0"
    creator := none
    creator_url := none
    title := none
    last_synced := 1
    removed := false
    meta_data := some (.obj [("artist", .str "A"), ("x", .null)])
    tags := none
    watermarked := none }

/-- A concrete staging row carrying new metadata fields. -/
def loadRowForC3 : LoadRow :=
  { foreign_id := some "42"
    landing_url := some "https://www.rawpixel.com/image/42"
    direct_url := some "https://images.rawpixel.com/42.jpg"
    thumbnail := none
    width := none
    height := none
    filesize := none
    license := some "cc0"
    license_version := some "1.0"
    creator := none
    creator_url := none
    title := none
    meta_data := some (.obj [("license_notes", .str "cc0"), ("x", .num 1)])
    tags := none
    watermarked := none
    provider := some "rawpixel"
    source := some "rawpixel"
    ingestion_type := none }

/-- A europeana-labelled catalog row whose `dataProvider` array matches
two different sub-provider markers. -/
def europeanaAmbiguousRow : ImageRow :=
  { created_on := 1
    updated_on := 1
    ingestion_type := none
    provider := some "europeana"
    source := some "europeana"
    foreign_id := some "e1"
    landing_url := some "https://europeana.eu/item/e1"
    direct_url := some "https://europeana.eu/media/e1.jpg"
    thumbnail := none
    width := none
    height := none
    filesize := none
    license := some "by"
    license_version := some "4.0"
    creator := none
    creator_url := none
    title := none
    last_synced := 1
    removed := false
    meta_data := some (.obj [("dataProvider", .arr [.str "M1", .str "M2"])])
    tags := none
    watermarked := none }

/-- A smithsonian-labelled catalog row with an unrecognized unit code. -/
def smithsonianUnknownRow : ImageRow :=
  { europeanaAmbiguousRow with
    provider := some "smithsonian"
    source := some "smithsonian"
    foreign_id := some "s1"
    meta_data := some (.obj [("unit_code", .str "XYZ")]) }

/-- The effect of one `UPDATE` statement on one catalog row. -/
def applyOpRow (d : String) (r : ImageRow) (op : String × String) : ImageRow :=
  if r.provider == some d && r.foreign_id == some op.1 then
    { r with source := some op.2 }
  else r

/-- The last-writer-wins value of a row's `source` after a sequence of
`UPDATE` statements. -/
def lastSrc (d : String) (r : ImageRow) (ops : List (String × String)) :
    Option String :=
  match (ops.filter
      (fun op => r.provider == some d && r.foreign_id == some op.1)).getLast? with
  | some op => some op.2
  | none => r.source

/-- The per-record results of a pass's selection, sequenced: the first
raised error wins, otherwise the list of `UPDATE` parameters. -/
def actionsOf (action : α → Except String (String × String)) :
    List α → Except String (List (String × String))
  | [] => .ok []
  | r :: rest =>
    match action r with
    | .error e => .error e
    | .ok op =>
      match actionsOf action rest with
      | .error e => .error e
      | .ok ops => .ok (op :: ops)

/-- A flickr-provider catalog row whose `source` was already manually
reclassified away from the default. -/
def flickrReclassifiedRow : ImageRow :=
  { created_on := 1
    updated_on := 1
    ingestion_type := none
    provider := some "flickr"
    source := some "spacex"
    foreign_id := some "f7"
    landing_url := some "https://flickr.com/photo/f7"
    direct_url := some "https://live.staticflickr.com/f7.jpg"
    thumbnail := none
    width := none
    height := none
    filesize := none
    license := some "by"
    license_version := some "2.0"
    creator := none
    creator_url := some "https://www.flickr.com/photos/nasa"
    title := none
    last_synced := 1
    removed := false
    meta_data := none
    tags := none
    watermarked := none }

def flickrRowForC8 : ImageRow :=
  { flickrReclassifiedRow with
    source := some "flickr"
    creator_url := some "https://www.flickr.com/photos/bio"
    foreign_id := some "f8" }

def europeanaRowForC8 : ImageRow :=
  { flickrReclassifiedRow with
    provider := some "europeana"
    source := some "europeana"
    foreign_id := some "e8"
    creator_url := none
    meta_data := some (.obj [("dataProvider", .arr [.str "M1"])]) }

def smithsonianRowForC8 : ImageRow :=
  { flickrReclassifiedRow with
    provider := some "smithsonian"
    source := some "smithsonian"
    foreign_id := some "s8"
    creator_url := none
    meta_data := some (.obj [("unit_code", .str "NMNH")]) }

/-- Catalog-side wellformedness of a metadata column: absent or an
object. -/
def metaObjOrNull : Option Jsonb → Bool
  | none => true
  | some (.obj _) => true
  | some _ => false

/-- Staging-side wellformedness of a metadata column: absent or an
object with no null-valued fields at any nesting level. -/
def metaObjNullFree : Option Jsonb → Bool
  | none => true
  | some (.obj kvs) => jsonbStripNulls.stripObj kvs == kvs
  | some _ => false

/-- Staging-side wellformedness of a tags column: absent or an array
with no duplicate elements (`pgDistinct l == l` holds exactly when no
two elements of `l` are equal, independently of any element order). -/
def tagsDistinct : Option (List Jsonb) → Bool
  | none => true
  | some l => pgDistinct l == l

/-- A staging row on which the upsert is idempotent: non-null identity
key, wellformed metadata, duplicate-free tags. -/
def cleanLoadRow (b : LoadRow) : Bool :=
  (loadKey? b).isSome && metaObjNullFree b.meta_data && tagsDistinct b.tags

/-- Erase the two timestamp columns the claim excludes. -/
def scrub (r : ImageRow) : ImageRow :=
  { r with updated_on := 0, last_synced := 0 }

/-- Idempotence-comparison view of a catalog row: the two timestamp
columns erased, and the tags array abstracted to its set of elements —
`jsonb_agg(DISTINCT ...)` preserves exactly this set while emitting it
in an order of its own choosing (jsonb btree order in Postgres), so the
element set is the order-independent invariant of the tags column.
Every other field is kept verbatim. -/
def scrubView (r : ImageRow) : ImageRow × Option (Finset Jsonb) :=
  ({ r with updated_on := 0, last_synced := 0, tags := none },
    Option.map List.toFinset r.tags)

/-- Re-merging `b` into `r` changes at most the timestamps. -/
def MergeStable (r : ImageRow) (b : LoadRow) : Prop :=
  ∀ m, scrub (mergeImageRow m r b) = scrub r

/-- After a first upsert, the staging row `b` conflicts with some
catalog row, and every row it conflicts with is merge-stable. -/
def Sat (cat : List ImageRow) (b : LoadRow) : Prop :=
  (∃ r ∈ cat, conflictsWith r b = true)
  ∧ ∀ r ∈ cat, conflictsWith r b = true → MergeStable r b

/-- A clean staging row: unique identity key, null-free object metadata,
already-distinct tags. -/
def loadRowForC1 : LoadRow :=
  { foreign_id := some "42"
    landing_url := some "https://www.rawpixel.com/image/42"
    direct_url := some "https://images.rawpixel.com/image.png"
    thumbnail := none
    width := some 800
    height := some 600
    filesize := none
    license := some "cc0"
    license_version := some "1.0"
    creator := some "A"
    creator_url := none
    title := some "t"
    meta_data := some (Jsonb.obj [("artist", Jsonb.str "A")])
    tags := some [Jsonb.str "a", Jsonb.str "b"]
    watermarked := some false
    provider := some "rawpixel"
    source := some "rawpixel"
    ingestion_type := some "provider_api" }

/-- An existing catalog row with the same identity key and object-valued
metadata, exercising the DO UPDATE branch of the upsert. -/
def imageRowForC1 : ImageRow :=
  { created_on := 5
    updated_on := 5
    ingestion_type := some "provider_api"
    provider := some "rawpixel"
    source := some "rawpixel"
    foreign_id := some "42"
    landing_url := some "https://old.example/42"
    direct_url := none
    thumbnail := none
    width := none
    height := none
    filesize := none
    license := some "cc0"
    license_version := none
    creator := none
    creator_url := none
    title := none
    last_synced := 5
    removed := true
    meta_data := some (Jsonb.obj [("origin", Jsonb.str "old")])
    tags := some [Jsonb.str "c"]
    watermarked := none }

/-- A staging row carrying a duplicate tag: the INSERT branch of the
upsert stores the array verbatim, the second run's merge deduplicates
it, so upserting the same batch twice is not a no-op modulo timestamps. -/
def loadRowDupTags : LoadRow :=
  { loadRowForC1 with tags := some [Jsonb.str "a", Jsonb.str "a"] }

theorem sqlCoalesce_eq_ite (a b : Option α) :
    sqlCoalesce a b = if a.isSome then a else b := by
  cases a <;> simp [sqlCoalesce]

theorem mem_pgDistinctAux (l : List Jsonb) :
    ∀ (seen : List Jsonb) (x : Jsonb),
      x ∈ pgDistinctAux seen l ↔ x ∈ l ∧ x ∉ seen := by
  induction l with
  | nil => simp [pgDistinctAux]
  | cons y ys ih =>
    intro seen x
    simp only [pgDistinctAux]
    split
    case isTrue hy =>
      rw [ih]
      simp only [List.mem_cons]
      constructor
      · rintro ⟨h1, h2⟩
        exact ⟨Or.inr h1, h2⟩
      · rintro ⟨h1 | h1, h2⟩
        · exact absurd (h1 ▸ hy) h2
        · exact ⟨h1, h2⟩
    case isFalse hy =>
      simp only [List.mem_cons, ih, List.mem_cons]
      constructor
      · rintro (rfl | ⟨h1, h2⟩)
        · exact ⟨Or.inl rfl, hy⟩
        · exact ⟨Or.inr h1, fun hs => h2 (Or.inr hs)⟩
      · rintro ⟨rfl | h1, h2⟩
        · exact Or.inl rfl
        · by_cases hxy : x = y
          · exact Or.inl hxy
          · exact Or.inr ⟨h1, fun hs => (hs.elim hxy h2)⟩

theorem mem_pgDistinct (l : List Jsonb) (x : Jsonb) :
    x ∈ pgDistinct l ↔ x ∈ l := by
  simp [pgDistinct, mem_pgDistinctAux]

theorem mergeImageRow_tags (now : Nat) (old : ImageRow) (new : LoadRow) :
    (mergeImageRow now old new).tags = mergeJsonbArrays old.tags new.tags := rfl

theorem mergeImageRow_meta (now : Nat) (old : ImageRow) (new : LoadRow) :
    (mergeImageRow now old new).meta_data
      = mergeJsonbObjects old.meta_data new.meta_data := rfl

/-! ## C2: scalar-field merge policy -/

/-- C2: for each of the fourteen scalar columns, the post-merge value is
the incoming staging value when that is non-null, and the existing
catalog value otherwise. -/
theorem c2_scalar_merge_coalesces (now : Nat) (old : ImageRow) (new : LoadRow) :
    ((mergeImageRow now old new).landing_url
        = if new.landing_url.isSome then new.landing_url else old.landing_url)
    ∧ ((mergeImageRow now old new).direct_url
        = if new.direct_url.isSome then new.direct_url else old.direct_url)
    ∧ ((mergeImageRow now old new).thumbnail
        = if new.thumbnail.isSome then new.thumbnail else old.thumbnail)
    ∧ ((mergeImageRow now old new).width
        = if new.width.isSome then new.width else old.width)
    ∧ ((mergeImageRow now old new).height
        = if new.height.isSome then new.height else old.height)
    ∧ ((mergeImageRow now old new).filesize
        = if new.filesize.isSome then new.filesize else old.filesize)
    ∧ ((mergeImageRow now old new).license
        = if new.license.isSome then new.license else old.license)
    ∧ ((mergeImageRow now old new).license_version
        = if new.license_version.isSome then new.license_version
          else old.license_version)
    ∧ ((mergeImageRow now old new).creator
        = if new.creator.isSome then new.creator else old.creator)
    ∧ ((mergeImageRow now old new).creator_url
        = if new.creator_url.isSome then new.creator_url else old.creator_url)
    ∧ ((mergeImageRow now old new).title
        = if new.title.isSome then new.title else old.title)
    ∧ ((mergeImageRow now old new).watermarked
        = if new.watermarked.isSome then new.watermarked else old.watermarked)
    ∧ ((mergeImageRow now old new).source
        = if new.source.isSome then new.source else old.source)
    ∧ ((mergeImageRow now old new).ingestion_type
        = if new.ingestion_type.isSome then new.ingestion_type
          else old.ingestion_type) := by
  refine ⟨?_, ?_, ?_, ?_, ?_, ?_, ?_, ?_, ?_, ?_, ?_, ?_, ?_, ?_⟩ <;>
    simp [mergeImageRow, newestNonNull, sqlCoalesce_eq_ite]

/-! ## C4: tags merge is the deduplicated set union -/

/-- C4: post-merge tags, viewed as a set, are exactly the union of the
existing and incoming tags, duplicates collapsed by full element
equality, so the number of distinct post-merge elements is the size of
that union. -/
theorem c4_tags_merge_is_set_union (now : Nat) (old : ImageRow) (new : LoadRow) :
    (∀ x : Jsonb,
      x ∈ tagElems (mergeImageRow now old new).tags ↔
        x ∈ tagElems old.tags ∨ x ∈ tagElems new.tags)
    ∧ (tagElems (mergeImageRow now old new).tags).toFinset
        = (tagElems old.tags).toFinset ∪ (tagElems new.tags).toFinset
    ∧ (tagElems (mergeImageRow now old new).tags).toFinset.card
        = ((tagElems old.tags).toFinset ∪ (tagElems new.tags).toFinset).card := by
  have hmem : ∀ x : Jsonb,
      x ∈ tagElems (mergeImageRow now old new).tags ↔
        x ∈ tagElems old.tags ∨ x ∈ tagElems new.tags := by
    intro x
    rw [mergeImageRow_tags]
    match ho : old.tags, hn : new.tags with
    | some o, some n =>
      simp only [mergeJsonbArrays, tagElems]
      match hc : o ++ n with
      | [] =>
        have : o = [] ∧ n = [] := by
          simpa using List.append_eq_nil.mp hc
        simp [this.1, this.2]
      | y :: ys =>
        simp only [Option.getD_some, mem_pgDistinct]
        rw [← hc]
        simp
    | none, some n => simp [mergeJsonbArrays, tagElems]
    | some o, none => simp [mergeJsonbArrays, tagElems]
    | none, none => simp [mergeJsonbArrays, tagElems]
  have hset : (tagElems (mergeImageRow now old new).tags).toFinset
      = (tagElems old.tags).toFinset ∪ (tagElems new.tags).toFinset := by
    ext x
    simp [hmem x]
  exact ⟨hmem, hset, by rw [hset]⟩

/-! ## C10: the normalizer can raise on a well-formed payload -/

/-- C10: `_process_image_data` is claimed total (record or `None`, never
an exception), but a payload whose `image_opengraph` URL lacks the `w`
query parameter makes `_get_image_properties` evaluate
`parse_qs(...).get("w", [])[0]`, which raises `IndexError` on the empty
default list; the exception propagates out of `_process_image_data`. -/
theorem c10_missing_width_param_raises :
    processImageData rawImageMissingWidthParam
      = .error "IndexError: list index out of range" := rfl

/-! ## C7 / C6: malformed-row deletion and the retry loop -/

theorem deleteRow_go_keepall (line_number : Nat) :
    ∀ (xs : List String) (idx : Nat), line_number ≤ idx →
      deleteMalformedRowInFile.go line_number idx xs = xs := by
  intro xs
  induction xs with
  | nil => intro idx _; rfl
  | cons x rest ih =>
    intro idx h
    have hne : idx + 1 ≠ line_number := by omega
    simp only [deleteMalformedRowInFile.go, bne_iff_ne, ne_eq, hne,
      not_false_eq_true, if_true]
    rw [ih (idx + 1) (by omega)]

theorem deleteRow_go_spec :
    ∀ (xs : List String) (j idx : Nat), j + 1 ≤ xs.length →
      deleteMalformedRowInFile.go (idx + j + 1) idx xs
        = xs.take j ++ xs.drop (j + 1) := by
  intro xs
  induction xs with
  | nil => intro j idx h; simp at h
  | cons x rest ih =>
    intro j idx h
    match j with
    | 0 =>
      have : ¬(idx + 1 ≠ idx + 0 + 1) := by omega
      simp only [deleteMalformedRowInFile.go, bne_iff_ne, this, if_false]
      rw [deleteRow_go_keepall _ rest (idx + 1) (by omega)]
      simp
    | j' + 1 =>
      have hne : idx + 1 ≠ idx + (j' + 1) + 1 := by omega
      simp only [deleteMalformedRowInFile.go, bne_iff_ne, ne_eq, hne,
        not_false_eq_true, if_true]
      have : idx + (j' + 1) + 1 = (idx + 1) + j' + 1 := by omega
      rw [this, ih j' (idx + 1) (by simpa using h)]
      simp

/-- Shared specification of `_delete_malformed_row_in_file` for an
in-range line number. -/
theorem deleteRow_eq (lines : List String) (k : Nat) (h1 : 1 ≤ k)
    (h2 : k ≤ lines.length) :
    deleteMalformedRowInFile lines k = lines.take (k - 1) ++ lines.drop k := by
  match k, h1 with
  | j + 1, _ =>
    have := deleteRow_go_spec lines j 0 (by omega)
    simpa [deleteMalformedRowInFile] using this

theorem deleteRow_length (lines : List String) (k : Nat) (h1 : 1 ≤ k)
    (h2 : k ≤ lines.length) :
    (deleteMalformedRowInFile lines k).length = lines.length - 1 := by
  rw [deleteRow_eq lines k h1 h2]
  simp
  omega

theorem firstMalformedLine_some_range (malformed : String → Bool)
    (lines : List String) (k : Nat)
    (h : firstMalformedLine malformed lines = some k) :
    1 ≤ k ∧ k ≤ lines.length := by
  unfold firstMalformedLine at h
  split at h
  case isTrue hany =>
    have hk : k = lines.findIdx malformed + 1 := by
      simpa using h.symm
    have hlt : lines.findIdx malformed < lines.length := by
      rcases List.any_eq_true.mp hany with ⟨x, hx, hpx⟩
      exact List.findIdx_lt_length_of_exists ⟨x, hx, hpx⟩
    omega
  case isFalse => simp at h

theorem loadAttemptLoop_length_le (malformed : String → Bool) :
    ∀ (n : Nat) (lines : List String),
      ((loadAttemptLoop malformed n lines).1).length ≤ lines.length := by
  intro n
  induction n with
  | zero => intro lines; simp [loadAttemptLoop]
  | succ m ih =>
    intro lines
    simp only [loadAttemptLoop]
    match hf : firstMalformedLine malformed lines with
    | none => simp
    | some k =>
      obtain ⟨hk1, hk2⟩ := firstMalformedLine_some_range malformed lines k hf
      calc ((loadAttemptLoop malformed m
              (deleteMalformedRowInFile lines k)).1).length
          ≤ (deleteMalformedRowInFile lines k).length := ih _
        _ ≤ lines.length := by rw [deleteRow_length lines k hk1 hk2]; omega

theorem loadAttemptLoop_removed (malformed : String → Bool) :
    ∀ (n : Nat) (lines : List String),
      lines.length - ((loadAttemptLoop malformed n lines).1).length ≤ n
      ∧ ((loadAttemptLoop malformed n lines).2 = false →
          lines.length - ((loadAttemptLoop malformed n lines).1).length = n) := by
  intro n
  induction n with
  | zero => intro lines; simp [loadAttemptLoop]
  | succ m ih =>
    intro lines
    match hf : firstMalformedLine malformed lines with
    | none => simp [loadAttemptLoop, hf]
    | some k =>
      have hstep : loadAttemptLoop malformed (m + 1) lines
          = loadAttemptLoop malformed m (deleteMalformedRowInFile lines k) := by
        simp [loadAttemptLoop, hf]
      rw [hstep]
      obtain ⟨hk1, hk2⟩ := firstMalformedLine_some_range malformed lines k hf
      have hdel := deleteRow_length lines k hk1 hk2
      have hle := loadAttemptLoop_length_le malformed m
        (deleteMalformedRowInFile lines k)
      obtain ⟨ih1, ih2⟩ := ih (deleteMalformedRowInFile lines k)
      constructor
      · omega
      · intro hfail
        have := ih2 hfail
        omega

/-- C6 (amended): the `finally` clause decrements the counter on every
iteration, so the default cap of 10 admits 11 attempts: at most 11 rows
are removed, and when the load still fails the function raises
`InvalidTextRepresentation`, having removed exactly 11 rows (the catalog
is untouched — the function only rewrites the input file and the staging
table). -/
theorem c6_retry_cap_is_eleven (malformed : String → Bool)
    (lines : List String) :
    lines.length - ((loadAttemptLoop malformed 11 lines).1).length ≤ 11
    ∧ ((loadAttemptLoop malformed 11 lines).2 = false →
        (∃ e, loadLocalDataToIntermediateTable malformed 10 lines = .error e)
        ∧ lines.length - ((loadAttemptLoop malformed 11 lines).1).length = 11) := by
  obtain ⟨h1, h2⟩ := loadAttemptLoop_removed malformed 11 lines
  refine ⟨h1, fun hfail => ⟨?_, h2 hfail⟩⟩
  refine ⟨"InvalidTextRepresentation: Exceeded the maximum number of allowed defective rows", ?_⟩
  unfold loadLocalDataToIntermediateTable
  have : ((10 : Int) + 1).toNat = 11 := rfl
  rw [this]
  match hl : loadAttemptLoop malformed 11 lines with
  | (f, true) => rw [hl] at hfail; simp at hfail
  | (f, false) => rfl

theorem c6_retry_cap_is_eleven_witness :
    ((loadAttemptLoop (fun _ => true) 11 (List.replicate 12 "x")).2 = false)
    ∧ ((∃ e, loadLocalDataToIntermediateTable (fun _ => true) 10
          (List.replicate 12 "x") = .error e)
        ∧ (List.replicate 12 "x").length
            - ((loadAttemptLoop (fun _ => true) 11 (List.replicate 12 "x")).1).length
          = 11) :=
  ⟨rfl, (c6_retry_cap_is_eleven (fun _ => true) (List.replicate 12 "x")).2 rfl⟩

/-- C6 as stated is refuted: on a file of twelve rows that all fail to
parse, the loader with the default cap of 10 removes 11 rows — more than
10 — before raising. -/
theorem c6_counterexample_eleven_rows_removed :
    (∃ e, loadLocalDataToIntermediateTable (fun _ => true) 10
        (List.replicate 12 "x") = .error e)
    ∧ (List.replicate 12 "x").length
        - ((loadAttemptLoop (fun _ => true) 11 (List.replicate 12 "x")).1).length
      = 11
    ∧ ¬((List.replicate 12 "x").length
        - ((loadAttemptLoop (fun _ => true) 11 (List.replicate 12 "x")).1).length
      ≤ 10) :=
  ⟨⟨"InvalidTextRepresentation: Exceeded the maximum number of allowed defective rows",
    rfl⟩, rfl, by decide⟩

theorem findIdx_append_of_forall_false (p : String → Bool) (bad : String)
    (hbad : p bad = true) :
    ∀ (pre post : List String), (∀ l ∈ pre, p l = false) →
      (pre ++ bad :: post).findIdx p = pre.length := by
  intro pre
  induction pre with
  | nil => intro post _; simp [List.findIdx_cons, hbad]
  | cons x xs ih =>
    intro post hall
    have hx : p x = false := hall x (List.mem_cons_self x xs)
    simp only [List.cons_append, List.findIdx_cons, hx, cond_false,
      List.length_cons]
    rw [ih post (fun l hl => hall l (List.mem_cons_of_mem x hl))]

/-- C7: for an in-range 1-based line number the rewrite removes exactly
that line, keeping every other line in order; consequently a 100-row
batch whose 57th row alone is malformed loads its other 99 rows after a
single skip-and-retry cycle. -/
theorem c7_delete_exact_line_and_retry :
    (∀ (lines : List String) (k : Nat), 1 ≤ k → k ≤ lines.length →
      deleteMalformedRowInFile lines k = lines.take (k - 1) ++ lines.drop k)
    ∧ (∀ (mal : String → Bool) (pre post : List String) (bad : String),
        pre.length = 56 → post.length = 43 →
        (∀ l ∈ pre, mal l = false) → mal bad = true →
        (∀ l ∈ post, mal l = false) →
        loadLocalDataToIntermediateTable mal 10 (pre ++ bad :: post)
          = .ok (pre ++ post)
        ∧ (pre ++ post).length = 99) := by
  constructor
  · exact deleteRow_eq
  · intro mal pre post bad hpre hpost hallpre hbad hallpost
    have hfirst : firstMalformedLine mal (pre ++ bad :: post) = some 57 := by
      unfold firstMalformedLine
      have hany : (pre ++ bad :: post).any mal = true := by
        refine List.any_eq_true.mpr ⟨bad, ?_, hbad⟩
        exact List.mem_append_right pre (List.mem_cons_self bad post)
      rw [if_pos hany,
        findIdx_append_of_forall_false mal bad hbad pre post hallpre, hpre]
    have hdel : deleteMalformedRowInFile (pre ++ bad :: post) 57 = pre ++ post := by
      rw [deleteRow_eq (pre ++ bad :: post) 57 (by omega)
        (by simp [hpre, hpost])]
      have htake : (pre ++ bad :: post).take 56 = pre := by
        rw [← hpre]
        exact List.take_left pre (bad :: post)
      have hdrop : (pre ++ bad :: post).drop 57 = post := by
        have hassoc : pre ++ bad :: post = (pre ++ [bad]) ++ post := by simp
        have hlen : (pre ++ [bad]).length = 57 := by simp [hpre]
        rw [hassoc, ← hlen]
        exact List.drop_left (pre ++ [bad]) post
      rw [show 57 - 1 = 56 from rfl, htake, hdrop]
    have hsecond : firstMalformedLine mal (pre ++ post) = none := by
      unfold firstMalformedLine
      rw [if_neg]
      intro hany
      rcases List.any_eq_true.mp hany with ⟨x, hx, hpx⟩
      rcases List.mem_append.mp hx with hx | hx
      · rw [hallpre x hx] at hpx; exact Bool.false_ne_true hpx
      · rw [hallpost x hx] at hpx; exact Bool.false_ne_true hpx
    have hloop : loadAttemptLoop mal 11 (pre ++ bad :: post) = (pre ++ post, true) := by
      show loadAttemptLoop mal (10 + 1) (pre ++ bad :: post) = (pre ++ post, true)
      simp only [loadAttemptLoop, hfirst, hdel]
      show loadAttemptLoop mal (9 + 1) (pre ++ post) = (pre ++ post, true)
      simp only [loadAttemptLoop, hsecond]
    constructor
    · unfold loadLocalDataToIntermediateTable
      rw [show ((10 : Int) + 1).toNat = 11 from rfl, hloop]
    · simp [hpre, hpost]

theorem c7_delete_exact_line_and_retry_witness :
    (deleteMalformedRowInFile ["a", "b", "c"] 2 = ["a"] ++ ["c"])
    ∧ (loadLocalDataToIntermediateTable (fun l => l == "BAD") 10
        (List.replicate 56 "ok" ++ "BAD" :: List.replicate 43 "ok")
        = .ok (List.replicate 56 "ok" ++ List.replicate 43 "ok")
      ∧ (List.replicate 56 "ok" ++ List.replicate 43 "ok").length = 99) :=
  ⟨by
    have h := c7_delete_exact_line_and_retry.1 ["a", "b", "c"] 2
      (by decide) (by decide)
    simpa using h,
  c7_delete_exact_line_and_retry.2 (fun l => l == "BAD")
    (List.replicate 56 "ok") (List.replicate 43 "ok") "BAD"
    (by decide) (by decide)
    (by intro l hl; rw [List.eq_of_mem_replicate hl]; decide)
    (by decide)
    (by intro l hl; rw [List.eq_of_mem_replicate hl]; decide)⟩

/-! ## C5: the staging cleaner -/

theorem sqlEqOpt_comm (a b : Option String) : sqlEqOpt a b = sqlEqOpt b a := by
  cases a with
  | none => cases b <;> rfl
  | some x =>
    cases b with
    | none => rfl
    | some y =>
      show (x == y) = (y == x)
      by_cases h : x = y
      · subst h; rfl
      · rw [beq_eq_false_iff_ne.mpr h, beq_eq_false_iff_ne.mpr (Ne.symm h)]

theorem sqlEqOpt_eq_some (a : Option String) (p : String)
    (h : sqlEqOpt a (some p) = true) : a = some p := by
  cases a with
  | none => simp [sqlEqOpt] at h
  | some q =>
    have : q = p := by simpa [sqlEqOpt] using h
    rw [this]

theorem dupMatch_eq_hasKey (p f : String) (x r : LoadRow)
    (hx : hasKey p f x = true) : dupMatch x r = hasKey p f r := by
  simp only [hasKey, Bool.and_eq_true] at hx
  obtain ⟨h1, h2⟩ := hx
  unfold dupMatch hasKey
  rw [sqlEqOpt_eq_some x.provider p h1, sqlEqOpt_eq_some x.foreign_id f h2,
    sqlEqOpt_comm (some p) r.provider, sqlEqOpt_comm (some f) r.foreign_id]

theorem any_congr_of_forall (l : List α) (g h : α → Bool)
    (H : ∀ x ∈ l, g x = h x) : l.any g = l.any h := by
  induction l with
  | nil => rfl
  | cons x xs ih =>
    simp only [List.any_cons]
    rw [H x (List.mem_cons_self x xs),
      ih (fun y hy => H y (List.mem_cons_of_mem x hy))]

theorem mem_of_mem_dedupDelete :
    ∀ (l : List LoadRow) (r : LoadRow), r ∈ dedupDelete l → r ∈ l := by
  intro l
  induction l with
  | nil => intro r h; simp [dedupDelete] at h
  | cons x xs ih =>
    intro r h
    simp only [dedupDelete] at h
    split at h
    · exact List.mem_cons_of_mem x (ih r h)
    · rcases List.mem_cons.mp h with rfl | h
      · exact List.mem_cons_self r xs
      · exact List.mem_cons_of_mem x (ih r h)

theorem dedupDelete_filter_key (p f : String) :
    ∀ (l : List LoadRow),
      (dedupDelete l).filter (hasKey p f)
        = ((l.filter (hasKey p f)).getLast?).toList := by
  intro l
  induction l with
  | nil => rfl
  | cons r rest ih =>
    simp only [dedupDelete]
    by_cases hk : hasKey p f r = true
    · have hany : rest.any (dupMatch r) = rest.any (hasKey p f) :=
        any_congr_of_forall rest _ _ (fun x _ => dupMatch_eq_hasKey p f r x hk)
      rw [hany]
      cases hrest : rest.any (hasKey p f) with
      | true =>
        simp only [if_true]
        rw [ih]
        have hfilter : (r :: rest).filter (hasKey p f)
            = r :: rest.filter (hasKey p f) := by
          simp [List.filter_cons, hk]
        rw [hfilter]
        rcases List.any_eq_true.mp hrest with ⟨x, hx, hkx⟩
        have hne : rest.filter (hasKey p f) ≠ [] := by
          intro hnil
          have := List.mem_filter.mpr ⟨hx, hkx⟩
          rw [hnil] at this
          exact List.not_mem_nil x this
        match hmm : rest.filter (hasKey p f) with
        | [] => exact absurd hmm hne
        | y :: ys => rw [List.getLast?_cons_cons]
      | false =>
        simp only [Bool.false_eq_true, if_false]
        have hfilterRest : rest.filter (hasKey p f) = [] :=
          List.filter_eq_nil_iff.mpr (fun a ha hka => by
            have h := List.any_eq_true.mpr ⟨a, ha, hka⟩
            rw [hrest] at h
            exact Bool.false_ne_true h)
        have hded : (dedupDelete rest).filter (hasKey p f) = [] := by
          rw [ih, hfilterRest]; rfl
        simp [List.filter_cons, hk, hded, hfilterRest]
    · have hk' : hasKey p f r = false := Bool.eq_false_iff.mpr hk
      have hfilter : (r :: rest).filter (hasKey p f)
          = rest.filter (hasKey p f) := by
        simp [List.filter_cons, hk']
      rw [hfilter]
      split
      · exact ih
      · simp only [List.filter_cons, hk', Bool.false_eq_true, if_false]
        exact ih

/-- C5 (amended): after cleaning, no surviving row has a null
`direct_url`, `license`, `landing_url` or `foreign_identifier`, and for
every identity-key group with a non-null provider exactly the physically
latest row of the group survives (the dedup `DELETE` removes each row
that has a *later* duplicate; rows with a `NULL` provider are never
deduplicated since SQL equality never holds for them). -/
theorem c5_clean_nulls_and_keeps_latest (t : List LoadRow) :
    (∀ r ∈ cleanIntermediateTableData t,
      r.direct_url.isSome ∧ r.license.isSome ∧ r.landing_url.isSome
        ∧ r.foreign_id.isSome)
    ∧ ∀ p f : String,
        (cleanIntermediateTableData t).filter (hasKey p f)
          = (((removeNullRequired t).filter (hasKey p f)).getLast?).toList := by
  constructor
  · intro r hr
    have hmem : r ∈ removeNullRequired t :=
      mem_of_mem_dedupDelete (removeNullRequired t) r hr
    unfold removeNullRequired at hmem
    have h4 := List.mem_filter.mp hmem
    have h3 := List.mem_filter.mp h4.1
    have h2 := List.mem_filter.mp h3.1
    have h1 := List.mem_filter.mp h2.1
    exact ⟨h1.2, h2.2, h3.2, h4.2⟩
  · intro p f
    exact dedupDelete_filter_key p f (removeNullRequired t)

/-- C5 as stated is refuted: on a staging table holding two rows with
the same identity key, the cleaner keeps the physically *later* row, not
the earlier one. -/
theorem c5_counterexample_keeps_later_row :
    cleanIntermediateTableData [stagingRowEarlier, stagingRowLater]
      = [stagingRowLater]
    ∧ stagingRowLater ≠ stagingRowEarlier := by decide

theorem c5_clean_nulls_and_keeps_latest_witness :
    (stagingRowLater.direct_url.isSome ∧ stagingRowLater.license.isSome
      ∧ stagingRowLater.landing_url.isSome ∧ stagingRowLater.foreign_id.isSome)
    ∧ (cleanIntermediateTableData [stagingRowEarlier, stagingRowLater]).filter
          (hasKey "flickr" "100")
        = (((removeNullRequired [stagingRowEarlier, stagingRowLater]).filter
          (hasKey "flickr" "100")).getLast?).toList :=
  ⟨(c5_clean_nulls_and_keeps_latest [stagingRowEarlier, stagingRowLater]).1
      stagingRowLater (by decide),
    (c5_clean_nulls_and_keeps_latest [stagingRowEarlier, stagingRowLater]).2
      "flickr" "100"⟩

/-! ## C3: metadata merge -/

theorem jLookup_append (a b : List (String × Jsonb)) (k : String) :
    jLookup (a ++ b) k = sqlCoalesce (jLookup a k) (jLookup b k) := by
  induction a with
  | nil => simp [jLookup, sqlCoalesce]
  | cons kv rest ih =>
    match kv with
    | (k', v) =>
      by_cases h : (k' == k) = true
      · simp [jLookup, h, sqlCoalesce]
      · have h' : (k' == k) = false := Bool.eq_false_iff.mpr h
        simp [jLookup, h', ih]

theorem any_key_eq_isSome (ys : List (String × Jsonb)) (k : String) :
    (ys.any (fun kv => kv.1 == k)) = (jLookup ys k).isSome := by
  induction ys with
  | nil => rfl
  | cons kv rest ih =>
    match kv with
    | (k', v) =>
      by_cases h : (k' == k) = true
      · simp [jLookup, h]
      · have h' : (k' == k) = false := Bool.eq_false_iff.mpr h
        simp [jLookup, h', ih]

theorem jLookup_eq_none_of_not_mem_keys (kvs : List (String × Jsonb))
    (k : String) (h : k ∉ kvs.map Prod.fst) : jLookup kvs k = none := by
  induction kvs with
  | nil => rfl
  | cons kv rest ih =>
    match kv with
    | (k', v) =>
      simp only [List.map_cons, List.mem_cons] at h
      push_neg at h
      have h' : (k' == k) = false :=
        beq_eq_false_iff_ne.mpr (fun he => h.1 he.symm)
      simp only [jLookup, h', Bool.false_eq_true, if_false]
      exact ih h.2

theorem jLookup_filter_absent (xs ys : List (String × Jsonb)) (k : String) :
    jLookup (xs.filter (fun kv => !(ys.any (fun kv2 => kv2.1 == kv.1)))) k
      = if ys.any (fun kv2 => kv2.1 == k) then none else jLookup xs k := by
  induction xs with
  | nil => simp [jLookup]
  | cons kv rest ih =>
    match kv with
    | (k', v) =>
      by_cases hkk : (k' == k) = true
      · have hk : k' = k := beq_iff_eq.mp hkk
        subst hk
        by_cases hys : (ys.any (fun kv2 => kv2.1 == k')) = true
        · simp only [List.filter_cons, hys, Bool.not_true, Bool.false_eq_true,
            if_false, ih, hys, if_true]
        · have hys' : (ys.any (fun kv2 => kv2.1 == k')) = false :=
            Bool.eq_false_iff.mpr hys
          simp only [List.filter_cons, hys', Bool.not_false, if_true,
            jLookup, hkk, if_true, hys', Bool.false_eq_true, if_false]
      · have hkk' : (k' == k) = false := Bool.eq_false_iff.mpr hkk
        by_cases hys : (ys.any (fun kv2 => kv2.1 == k')) = true
        · simp only [List.filter_cons, hys, Bool.not_true, Bool.false_eq_true,
            if_false, ih, jLookup, hkk', if_false]
        · have hys' : (ys.any (fun kv2 => kv2.1 == k')) = false :=
            Bool.eq_false_iff.mpr hys
          simp only [List.filter_cons, hys', Bool.not_false, if_true, jLookup,
            hkk', Bool.false_eq_true, if_false, ih]

theorem jLookup_stripObj (kvs : List (String × Jsonb)) (k : String)
    (h : (kvs.map Prod.fst).Nodup) :
    jLookup (jsonbStripNulls.stripObj kvs) k = cleanLookup kvs k := by
  induction kvs with
  | nil => rfl
  | cons kv rest ih =>
    match kv with
    | (k', v) =>
      simp only [List.map_cons, List.nodup_cons] at h
      obtain ⟨hnot, hrest⟩ := h
      by_cases hkk : (k' == k) = true
      · have hk : k' = k := beq_iff_eq.mp hkk
        subst hk
        cases v with
        | null =>
          simp only [jsonbStripNulls.stripObj, cleanLookup, jLookup, hkk,
            if_true, ih hrest]
          have : jLookup rest k' = none :=
            jLookup_eq_none_of_not_mem_keys rest k' hnot
          simp [cleanLookup, this]
        | bool b => simp [jsonbStripNulls.stripObj, cleanLookup, jLookup, hkk]
        | num n => simp [jsonbStripNulls.stripObj, cleanLookup, jLookup, hkk]
        | str s => simp [jsonbStripNulls.stripObj, cleanLookup, jLookup, hkk]
        | arr xs => simp [jsonbStripNulls.stripObj, cleanLookup, jLookup, hkk]
        | obj fields => simp [jsonbStripNulls.stripObj, cleanLookup, jLookup, hkk]
      · have hkk' : (k' == k) = false := Bool.eq_false_iff.mpr hkk
        cases v with
        | null =>
          simp only [jsonbStripNulls.stripObj, ih hrest, cleanLookup, jLookup,
            hkk', Bool.false_eq_true, if_false]
        | bool b => simp [jsonbStripNulls.stripObj, cleanLookup, jLookup, hkk', ih hrest]
        | num n => simp [jsonbStripNulls.stripObj, cleanLookup, jLookup, hkk', ih hrest]
        | str s => simp [jsonbStripNulls.stripObj, cleanLookup, jLookup, hkk', ih hrest]
        | arr xs => simp [jsonbStripNulls.stripObj, cleanLookup, jLookup, hkk', ih hrest]
        | obj fields => simp [jsonbStripNulls.stripObj, cleanLookup, jLookup, hkk', ih hrest]

/-- C3 (amended): when both sides' metadata are objects with unique
keys, nulls are stripped from each side *before* merging, so each key
maps to the incoming value (recursively null-stripped) when that is
non-null, otherwise to the existing null-stripped value when that is
non-null, and is absent when null or missing on both sides.  In
particular a key that is null in the incoming record but non-null in the
existing record keeps the existing value — it is not removed and does
not take the incoming null. -/
theorem c3_amended_metadata_merge (now : Nat) (old : ImageRow) (new : LoadRow)
    (o n : List (String × Jsonb))
    (ho : old.meta_data = some (.obj o)) (hn : new.meta_data = some (.obj n))
    (hno : (o.map Prod.fst).Nodup) (hnn : (n.map Prod.fst).Nodup)
    (k : String) :
    metaLookup (mergeImageRow now old new).meta_data k
      = sqlCoalesce (cleanLookup n k) (cleanLookup o k) := by
  rw [mergeImageRow_meta]
  rw [show mergeJsonbObjects old.meta_data new.meta_data
      = some (.obj (jsonbObjMerge (jsonbStripNulls.stripObj o)
          (jsonbStripNulls.stripObj n))) by
    rw [ho, hn]; rfl]
  show jLookup (jsonbObjMerge (jsonbStripNulls.stripObj o)
      (jsonbStripNulls.stripObj n)) k = _
  unfold jsonbObjMerge
  rw [jLookup_append, jLookup_filter_absent, any_key_eq_isSome,
    jLookup_stripObj o k hno, jLookup_stripObj n k hnn]
  cases hcn : cleanLookup n k with
  | none =>
    simp only [sqlCoalesce]
    cases cleanLookup o k <;> rfl
  | some v => simp [sqlCoalesce]

/-- C3 as stated is refuted: merging existing metadata
`\x7b"artist": "A"\x7d` with incoming `\x7b"artist": null\x7d` keeps
`"artist" -> "A"`, although the claim requires every key present in the
incoming mapping to take the incoming value and every key that is
null-valued on either side to be absent post-merge. -/
theorem c3_counterexample_null_key_keeps_existing :
    ¬ c3ClaimedProperty [("artist", .str "A")] [("artist", .null)] := by
  intro h
  have h' : (∀ k v, jLookup [("artist", Jsonb.str "A")] k = some v
        → jLookup [("artist", Jsonb.null)] k = none
        → jLookup [("artist", Jsonb.str "A")] k = some v)
      ∧ (∀ k v, jLookup [("artist", Jsonb.null)] k = some v
        → jLookup [("artist", Jsonb.str "A")] k = some v)
      ∧ (∀ k, (jLookup [("artist", Jsonb.str "A")] k = some Jsonb.null
          ∨ jLookup [("artist", Jsonb.null)] k = some Jsonb.null)
        → jLookup [("artist", Jsonb.str "A")] k = none) := h
  have hbad := h'.2.2 "artist" (Or.inr (by decide))
  exact absurd hbad (by decide)

theorem c3_amended_metadata_merge_witness :
    ((imageRowForC3.meta_data
        = some (.obj [("artist", .str "A"), ("x", .null)]))
      ∧ (loadRowForC3.meta_data
        = some (.obj [("license_notes", .str "cc0"), ("x", .num 1)]))
      ∧ (([("artist", Jsonb.str "A"), ("x", Jsonb.null)].map Prod.fst).Nodup)
      ∧ (([("license_notes", Jsonb.str "cc0"), ("x", Jsonb.num 1)].map
          Prod.fst).Nodup))
    ∧ metaLookup (mergeImageRow 7 imageRowForC3 loadRowForC3).meta_data "x"
        = sqlCoalesce
            (cleanLookup [("license_notes", Jsonb.str "cc0"), ("x", Jsonb.num 1)] "x")
            (cleanLookup [("artist", Jsonb.str "A"), ("x", Jsonb.null)] "x") :=
  ⟨⟨rfl, rfl, by decide, by decide⟩,
    c3_amended_metadata_merge 7 imageRowForC3 loadRowForC3
      [("artist", .str "A"), ("x", .null)]
      [("license_notes", .str "cc0"), ("x", .num 1)]
      rfl rfl (by decide) (by decide) "x"⟩

/-! ## C9: ambiguous / unknown classification raises fatally -/

theorem jsonbBeq_comm (a b : Jsonb) : (a == b) = (b == a) := by
  by_cases h : a = b
  · subst h; rfl
  · rw [beq_eq_false_iff_ne.mpr h, beq_eq_false_iff_ne.mpr (Ne.symm h)]

theorem runSourceUpdates_error_of_mem (d : String)
    (action : α → Except String (String × String)) :
    ∀ (rows : List α) (cat : List ImageRow),
      (∃ row ∈ rows, ∃ e, action row = .error e) →
      ∃ e, runSourceUpdates d action cat rows = .error e := by
  intro rows
  induction rows with
  | nil =>
    intro cat h
    rcases h with ⟨row, hmem, _⟩
    exact absurd hmem (List.not_mem_nil row)
  | cons r rest ih =>
    intro cat h
    match ha : action r with
    | .error e => exact ⟨e, by simp [runSourceUpdates, ha]⟩
    | .ok op =>
      rcases h with ⟨row, hmem, e, he⟩
      rcases List.mem_cons.mp hmem with rfl | hmem
      · rw [ha] at he; exact absurd he (by simp)
      · have := ih (applySourceUpdate d cat op) ⟨row, hmem, e, he⟩
        rcases this with ⟨e', he'⟩
        exact ⟨e', by simp [runSourceUpdates, ha, he']⟩

/-- The shape of the per-record europeana check on an array-valued
`dataProvider`, by unfolding. -/
theorem europeanaRowAction_arr (subProviders : List (String × String))
    (fid : Option String) (xs : List Jsonb) (sub : String) :
    europeanaRowAction subProviders (fid, .arr xs, sub)
      = match subProviders.filter (fun sp => jsonbExists (.arr xs) sp.2) with
        | _ :: _ :: _ =>
          .error ("More than one sub-provider identified for the image with foreign ID "
            ++ pyStrOfOpt fid)
        | [] => .error "AssertionError: len(eligible_sub_providers) == 1"
        | [e] =>
          if e.1 == sub then .ok (pyStrOfOpt fid, sub)
          else .error "AssertionError: eligible_sub_providers.pop() == sub_provider" :=
  rfl

/-- The shape of the per-record europeana check on an object-valued
`dataProvider`, by unfolding. -/
theorem europeanaRowAction_obj (subProviders : List (String × String))
    (fid : Option String) (kvs : List (String × Jsonb)) (sub : String) :
    europeanaRowAction subProviders (fid, .obj kvs, sub)
      = match subProviders.filter (fun sp => jsonbExists (.obj kvs) sp.2) with
        | _ :: _ :: _ =>
          .error ("More than one sub-provider identified for the image with foreign ID "
            ++ pyStrOfOpt fid)
        | [] => .error "AssertionError: len(eligible_sub_providers) == 1"
        | [e] =>
          if e.1 == sub then .ok (pyStrOfOpt fid, sub)
          else .error "AssertionError: eligible_sub_providers.pop() == sub_provider" :=
  rfl

theorem europeanaRowAction_error_of_multi
    (subProviders : List (String × String)) (fid : Option String)
    (dp : Jsonb) (sub : String)
    (h : 1 < (subProviders.filter (fun sp => jsonbExists dp sp.2)).length) :
    ∃ e, europeanaRowAction subProviders (fid, dp, sub) = .error e := by
  cases dp with
  | null => exact ⟨_, rfl⟩
  | bool b => exact ⟨_, rfl⟩
  | num n => exact ⟨_, rfl⟩
  | str s => exact ⟨_, rfl⟩
  | arr xs =>
    rw [europeanaRowAction_arr]
    cases hel : subProviders.filter (fun sp => jsonbExists (.arr xs) sp.2) with
    | nil => rw [hel] at h; simp at h
    | cons e1 rest =>
      cases rest with
      | nil => rw [hel] at h; simp at h
      | cons e2 es => exact ⟨_, rfl⟩
  | obj kvs =>
    rw [europeanaRowAction_obj]
    cases hel : subProviders.filter (fun sp => jsonbExists (.obj kvs) sp.2) with
    | nil => rw [hel] at h; simp at h
    | cons e1 rest =>
      cases rest with
      | nil => rw [hel] at h; simp at h
      | cons e2 es => exact ⟨_, rfl⟩

/-- C9: a catalog row whose metadata matches more than one europeana
sub-provider makes `update_europeana_sub_providers` raise, and a
selected smithsonian row whose unit code matches no known sub-provider
makes `update_smithsonian_sub_providers` raise; both errors propagate
out of the pass (the embedding has no handler), terminating the run
instead of defaulting or skipping. -/
theorem c9_fatal_classification_errors :
    (∀ (subProviders : List (String × String)) (d : String)
        (cat : List ImageRow),
      (∃ row ∈ europeanaSelection subProviders d cat,
        1 < (subProviders.filter (fun sp => jsonbExists row.2.1 sp.2)).length) →
      ∃ e, updateEuropeanaSubProviders subProviders d cat = .error e)
    ∧ (∀ (subProviders : List (String × List String)) (d : String)
        (cat : List ImageRow),
      (∃ row ∈ smithsonianSelection d cat, ∀ sp ∈ subProviders,
        (match row.2 with
          | some u => sp.2.contains u
          | none => false) = false) →
      ∃ e, updateSmithsonianSubProviders subProviders d cat = .error e) := by
  constructor
  · intro subProviders d cat ⟨row, hmem, hmulti⟩
    obtain ⟨fid, dpj, sub⟩ := row
    exact runSourceUpdates_error_of_mem d (europeanaRowAction subProviders)
      (europeanaSelection subProviders d cat) cat
      ⟨(fid, dpj, sub), hmem,
        europeanaRowAction_error_of_multi subProviders fid dpj sub hmulti⟩
  · intro subProviders d cat ⟨row, hmem, hnone⟩
    refine runSourceUpdates_error_of_mem d (smithsonianRowAction subProviders)
      (smithsonianSelection d cat) cat ⟨row, hmem, ?_⟩
    have hfind : subProviders.find? (fun sp =>
        match row.2 with
        | some u => sp.2.contains u
        | none => false) = none := by
      rw [List.find?_eq_none]
      intro sp hsp
      rw [hnone sp hsp]
      exact Bool.false_ne_true
    exact ⟨_, by unfold smithsonianRowAction; rw [hfind]⟩

theorem c9_fatal_classification_errors_witness :
    ((∃ row ∈ europeanaSelection [("s1", "M1"), ("s2", "M2")] "europeana"
        [europeanaAmbiguousRow],
      1 < ([("s1", "M1"), ("s2", "M2")].filter
        (fun sp => jsonbExists row.2.1 sp.2)).length)
      ∧ ∃ e, updateEuropeanaSubProviders [("s1", "M1"), ("s2", "M2")]
          "europeana" [europeanaAmbiguousRow] = .error e)
    ∧ ((∃ row ∈ smithsonianSelection "smithsonian" [smithsonianUnknownRow],
        ∀ sp ∈ [("s", ["NMNH"])], (match row.2 with
          | some u => sp.2.contains u
          | none => false) = false)
      ∧ ∃ e, updateSmithsonianSubProviders [("s", ["NMNH"])] "smithsonian"
          [smithsonianUnknownRow] = .error e) :=
  ⟨⟨by decide,
    c9_fatal_classification_errors.1 [("s1", "M1"), ("s2", "M2")] "europeana"
      [europeanaAmbiguousRow] (by decide)⟩,
  ⟨by decide,
    c9_fatal_classification_errors.2 [("s", ["NMNH"])] "smithsonian"
      [smithsonianUnknownRow] (by decide)⟩⟩

/-! ## C8: idempotence of the reclassification passes -/

theorem applySourceUpdate_eq_map (d : String) (cat : List ImageRow)
    (op : String × String) :
    applySourceUpdate d cat op = cat.map (fun r => applyOpRow d r op) := rfl

theorem applyOpRow_fields (d : String) (r : ImageRow) (op : String × String) :
    (applyOpRow d r op).provider = r.provider
    ∧ (applyOpRow d r op).foreign_id = r.foreign_id
    ∧ (applyOpRow d r op).creator_url = r.creator_url
    ∧ (applyOpRow d r op).meta_data = r.meta_data := by
  unfold applyOpRow
  split <;> exact ⟨rfl, rfl, rfl, rfl⟩

theorem applyOpRow_eta (d : String) (r : ImageRow) (op : String × String) :
    applyOpRow d r op = { r with source := (applyOpRow d r op).source } := by
  unfold applyOpRow
  split <;> rfl

theorem foldl_applyOpRow_fields (d : String) (ops : List (String × String)) :
    ∀ (r : ImageRow),
      (ops.foldl (applyOpRow d) r).provider = r.provider
      ∧ (ops.foldl (applyOpRow d) r).foreign_id = r.foreign_id
      ∧ (ops.foldl (applyOpRow d) r).creator_url = r.creator_url
      ∧ (ops.foldl (applyOpRow d) r).meta_data = r.meta_data := by
  induction ops with
  | nil => intro r; exact ⟨rfl, rfl, rfl, rfl⟩
  | cons op rest ih =>
    intro r
    obtain ⟨h1, h2, h3, h4⟩ := ih (applyOpRow d r op)
    obtain ⟨g1, g2, g3, g4⟩ := applyOpRow_fields d r op
    exact ⟨h1.trans g1, h2.trans g2, h3.trans g3, h4.trans g4⟩

theorem foldl_applySourceUpdate_eq_map (d : String) :
    ∀ (ops : List (String × String)) (cat : List ImageRow),
      ops.foldl (applySourceUpdate d) cat
        = cat.map (fun r => ops.foldl (applyOpRow d) r) := by
  intro ops
  induction ops with
  | nil => intro cat; simp [List.foldl]
  | cons op rest ih =>
    intro cat
    show rest.foldl (applySourceUpdate d) (applySourceUpdate d cat op) = _
    rw [ih, applySourceUpdate_eq_map, List.map_map]
    rfl

theorem getLast?_cons_of_ne_nil (x : α) (l : List α) (h : l ≠ []) :
    (x :: l).getLast? = l.getLast? := by
  match l with
  | [] => exact absurd rfl h
  | y :: ys => exact List.getLast?_cons_cons

theorem foldl_applyOpRow_char (d : String) :
    ∀ (ops : List (String × String)) (r : ImageRow),
      ops.foldl (applyOpRow d) r = { r with source := lastSrc d r ops } := by
  intro ops
  induction ops with
  | nil => intro r; simp [List.foldl, lastSrc, List.getLast?]
  | cons op rest ih =>
    intro r
    show rest.foldl (applyOpRow d) (applyOpRow d r op) = _
    rw [ih (applyOpRow d r op)]
    obtain ⟨g1, g2, _, _⟩ := applyOpRow_fields d r op
    have hpred : (fun op2 : String × String =>
        (applyOpRow d r op).provider == some d
          && (applyOpRow d r op).foreign_id == some op2.1)
        = (fun op2 : String × String =>
        r.provider == some d && r.foreign_id == some op2.1) := by
      funext op2
      rw [g1, g2]
    have hsrc : applyOpRow d r op
        = { r with source := (applyOpRow d r op).source } := applyOpRow_eta d r op
    rw [hsrc]
    show ({ r with source := lastSrc d { r with source := (applyOpRow d r op).source } rest } : ImageRow)
        = { r with source := lastSrc d r (op :: rest) }
    have : lastSrc d { r with source := (applyOpRow d r op).source } rest
        = lastSrc d r (op :: rest) := by
      unfold lastSrc
      show (match (rest.filter (fun op2 =>
          r.provider == some d && r.foreign_id == some op2.1)).getLast? with
        | some op2 => some op2.2
        | none => (applyOpRow d r op).source) = _
      cases hfil : (rest.filter (fun op2 =>
          r.provider == some d && r.foreign_id == some op2.1)) with
      | nil =>
        simp only [List.getLast?_nil]
        rw [List.filter_cons]
        cases hmatch : (r.provider == some d && r.foreign_id == some op.1) with
        | true =>
          rw [hfil]
          simp only [if_true]
          unfold applyOpRow
          rw [hmatch]
          rfl
        | false =>
          rw [hfil]
          simp only [Bool.false_eq_true, if_false, List.getLast?_nil]
          unfold applyOpRow
          rw [hmatch]
          rfl
      | cons q qs =>
        rw [List.filter_cons]
        cases hmatch : (r.provider == some d && r.foreign_id == some op.1) with
        | true =>
          rw [hfil]
          simp only [if_true]
          rw [getLast?_cons_of_ne_nil op (q :: qs) (by simp)]
          cases hlast : (q :: qs).getLast? with
          | some op2 => rfl
          | none =>
            rw [List.getLast?_eq_none_iff] at hlast
            exact absurd hlast (by simp)
        | false =>
          rw [hfil]
          simp only [Bool.false_eq_true, if_false]
          cases hlast : (q :: qs).getLast? with
          | some op2 => rfl
          | none =>
            rw [List.getLast?_eq_none_iff] at hlast
            exact absurd hlast (by simp)
    rw [this]

theorem foldl_applyOpRow_idem (d : String) (ops : List (String × String))
    (r : ImageRow) :
    ops.foldl (applyOpRow d) (ops.foldl (applyOpRow d) r)
      = ops.foldl (applyOpRow d) r := by
  rw [foldl_applyOpRow_char d ops r, foldl_applyOpRow_char d ops]
  have hpred : (fun op : String × String =>
      ({ r with source := lastSrc d r ops } : ImageRow).provider == some d
        && ({ r with source := lastSrc d r ops } : ImageRow).foreign_id
          == some op.1)
      = (fun op : String × String =>
      r.provider == some d && r.foreign_id == some op.1) := rfl
  unfold lastSrc
  cases hfil : (ops.filter (fun op =>
      r.provider == some d && r.foreign_id == some op.1)).getLast? with
  | none => simp [hfil]
  | some op => simp [hfil]

theorem flatMap_map_congr (F : α → α) (g : α → List β) :
    ∀ (l : List α), (∀ r ∈ l, g (F r) = g r) →
      (l.map F).flatMap g = l.flatMap g := by
  intro l
  induction l with
  | nil => intro _; rfl
  | cons x xs ih =>
    intro h
    simp only [List.map_cons, List.flatMap_cons]
    rw [h x (List.mem_cons_self x xs),
      ih (fun r hr => h r (List.mem_cons_of_mem x hr))]

theorem flickrSelection_preserved (table : List (String × String)) (d : String)
    (cat : List ImageRow) (ops : List (String × String)) :
    flickrSelection table d (cat.map (fun r => ops.foldl (applyOpRow d) r))
      = flickrSelection table d cat := by
  unfold flickrSelection
  apply flatMap_map_congr
  intro r _
  obtain ⟨h1, h2, h3, _⟩ := foldl_applyOpRow_fields d ops r
  simp only [h1, h2, h3]

theorem updateFlickrSubProviders_idempotent (table : List (String × String))
    (d : String) (cat : List ImageRow) :
    updateFlickrSubProviders table d (updateFlickrSubProviders table d cat)
      = updateFlickrSubProviders table d cat := by
  have hmap : (flickrSelection table d cat).foldl (applySourceUpdate d) cat
      = cat.map (fun r => (flickrSelection table d cat).foldl (applyOpRow d) r) :=
    foldl_applySourceUpdate_eq_map d _ cat
  unfold updateFlickrSubProviders
  rw [hmap, flickrSelection_preserved table d cat,
    foldl_applySourceUpdate_eq_map, List.map_map]
  apply List.map_congr_left
  intro r _
  exact foldl_applyOpRow_idem d _ r

theorem runSourceUpdates_eq (d : String)
    (action : α → Except String (String × String)) :
    ∀ (rows : List α) (cat : List ImageRow),
      runSourceUpdates d action cat rows
        = match actionsOf action rows with
          | .error e => .error e
          | .ok ops => .ok (ops.foldl (applySourceUpdate d) cat) := by
  intro rows
  induction rows with
  | nil => intro cat; rfl
  | cons r rest ih =>
    intro cat
    cases ha : action r with
    | error e => simp only [runSourceUpdates, ha, actionsOf]
    | ok op =>
      simp only [runSourceUpdates, ha, actionsOf]
      rw [ih (applySourceUpdate d cat op)]
      cases actionsOf action rest with
      | error e => rfl
      | ok ops => rfl

theorem europeanaSelection_preserved (subProviders : List (String × String))
    (d : String) (cat : List ImageRow) (ops : List (String × String)) :
    europeanaSelection subProviders d
        (cat.map (fun r => ops.foldl (applyOpRow d) r))
      = europeanaSelection subProviders d cat := by
  unfold europeanaSelection
  apply flatMap_map_congr
  intro r _
  obtain ⟨h1, h2, _, h4⟩ := foldl_applyOpRow_fields d ops r
  simp only [h1, h2, h4]

/-- Europeana reclassification is idempotent: a successful pass leaves a
catalog on which re-running the pass succeeds without further change. -/
theorem updateEuropeanaSubProviders_idempotent
    (subProviders : List (String × String)) (d : String)
    (cat cat' : List ImageRow)
    (h : updateEuropeanaSubProviders subProviders d cat = .ok cat') :
    updateEuropeanaSubProviders subProviders d cat' = .ok cat' := by
  unfold updateEuropeanaSubProviders at h ⊢
  rw [runSourceUpdates_eq] at h
  cases hops : actionsOf (europeanaRowAction subProviders)
      (europeanaSelection subProviders d cat) with
  | error e =>
    rw [hops] at h
    have h' : (Except.error e : Except String (List ImageRow)) = .ok cat' := h
    exact absurd h' (by simp)
  | ok ops =>
    rw [hops] at h
    have h' : Except.ok (ops.foldl (applySourceUpdate d) cat)
        = (Except.ok cat' : Except String (List ImageRow)) := h
    have hcat' : ops.foldl (applySourceUpdate d) cat = cat' := by
      injection h'
    have hcatmap : cat' = cat.map (fun r => ops.foldl (applyOpRow d) r) := by
      rw [← hcat', foldl_applySourceUpdate_eq_map]
    rw [runSourceUpdates_eq]
    rw [hcatmap, europeanaSelection_preserved, hops]
    show Except.ok (ops.foldl (applySourceUpdate d)
        (cat.map (fun r => ops.foldl (applyOpRow d) r)))
      = Except.ok (cat.map (fun r => ops.foldl (applyOpRow d) r))
    rw [foldl_applySourceUpdate_eq_map, List.map_map]
    have hcong : cat.map ((fun r => ops.foldl (applyOpRow d) r)
        ∘ (fun r => ops.foldl (applyOpRow d) r))
        = cat.map (fun r => ops.foldl (applyOpRow d) r) := by
      apply List.map_congr_left
      intro r _
      exact foldl_applyOpRow_idem d ops r
    rw [hcong]

theorem mem_of_getLast?_eq_some :
    ∀ (l : List α) (a : α), l.getLast? = some a → a ∈ l
  | [], a, h => by simp at h
  | [x], a, h => by
    have : x = a := by simpa using h
    simp [this]
  | x :: y :: ys, a, h => by
    rw [List.getLast?_cons_cons] at h
    exact List.mem_cons_of_mem x (mem_of_getLast?_eq_some (y :: ys) a h)

theorem actionsOf_ok_mem (act : α → Except String (String × String)) :
    ∀ (rows : List α) (ops : List (String × String)),
      actionsOf act rows = .ok ops →
      (∀ op ∈ ops, ∃ row ∈ rows, act row = .ok op)
      ∧ (∀ row ∈ rows, ∃ op ∈ ops, act row = .ok op) := by
  intro rows
  induction rows with
  | nil =>
    intro ops h
    have h' : (Except.ok [] : Except String (List (String × String))) = .ok ops := h
    have hops : ([] : List (String × String)) = ops := by injection h'
    subst hops
    exact ⟨fun op hop => absurd hop (List.not_mem_nil op),
      fun row hrow => absurd hrow (List.not_mem_nil row)⟩
  | cons r rest ih =>
    intro ops h
    cases ha : act r with
    | error e =>
      rw [show actionsOf act (r :: rest) = .error e by
        simp [actionsOf, ha]] at h
      exact absurd h (by simp)
    | ok op0 =>
      cases hrest : actionsOf act rest with
      | error e =>
        rw [show actionsOf act (r :: rest) = .error e by
          simp [actionsOf, ha, hrest]] at h
        exact absurd h (by simp)
      | ok ops0 =>
        have hh : (Except.ok (op0 :: ops0)
            : Except String (List (String × String))) = .ok ops := by
          rw [← h]; simp [actionsOf, ha, hrest]
        have hops : op0 :: ops0 = ops := by injection hh
        subst hops
        obtain ⟨ih1, ih2⟩ := ih ops0 hrest
        constructor
        · intro op hop
          rcases List.mem_cons.mp hop with rfl | hop
          · exact ⟨r, List.mem_cons_self r rest, ha⟩
          · obtain ⟨row, hrow, hact⟩ := ih1 op hop
            exact ⟨row, List.mem_cons_of_mem r hrow, hact⟩
        · intro row hrow
          rcases List.mem_cons.mp hrow with rfl | hrow
          · exact ⟨op0, List.mem_cons_self op0 ops0, ha⟩
          · obtain ⟨op, hop, hact⟩ := ih2 row hrow
            exact ⟨op, List.mem_cons_of_mem op0 hop, hact⟩

theorem actionsOf_all_ok (act : α → Except String (String × String)) :
    ∀ (rows : List α), (∀ row ∈ rows, ∃ op, act row = .ok op) →
      ∃ ops, actionsOf act rows = .ok ops := by
  intro rows
  induction rows with
  | nil => intro _; exact ⟨[], rfl⟩
  | cons r rest ih =>
    intro h
    obtain ⟨op0, hop0⟩ := h r (List.mem_cons_self r rest)
    obtain ⟨ops0, hops0⟩ := ih (fun row hrow => h row (List.mem_cons_of_mem r hrow))
    exact ⟨op0 :: ops0, by simp [actionsOf, hop0, hops0]⟩

/-- Under the catalog's unique index on `(provider, md5(foreign_id))`,
two rows with the same non-null key are the same row. -/
theorem eq_of_same_key :
    ∀ (cat : List ImageRow), (cat.filterMap imageKey?).Nodup →
      ∀ q ∈ cat, ∀ r ∈ cat, ∀ k : String × String,
        imageKey? q = some k → imageKey? r = some k → q = r := by
  intro cat
  induction cat with
  | nil => intro _ q hq; exact absurd hq (List.not_mem_nil q)
  | cons c rest ih =>
    intro hnodup q hq r hr k hqk hrk
    have hsub : ∀ x ∈ rest, imageKey? x = some k → imageKey? c = some k →
        False := by
      intro x hx hxk hck
      have hkmem : k ∈ rest.filterMap imageKey? :=
        List.mem_filterMap.mpr ⟨x, hx, hxk⟩
      rw [List.filterMap_cons, hck] at hnodup
      have hnodup' : (k :: rest.filterMap imageKey?).Nodup := hnodup
      exact (List.nodup_cons.mp hnodup').1 hkmem
    rcases List.mem_cons.mp hq with hq1 | hq1
    · rcases List.mem_cons.mp hr with hr1 | hr1
      · rw [hq1, hr1]
      · exact (hsub r hr1 hrk (by rw [← hq1]; exact hqk)).elim
    · rcases List.mem_cons.mp hr with hr1 | hr1
      · exact (hsub q hq1 hqk (by rw [← hr1]; exact hrk)).elim
      · refine ih ?_ q hq1 r hr1 k hqk hrk
        cases hc : imageKey? c with
        | none =>
          rw [List.filterMap_cons, hc] at hnodup
          exact hnodup
        | some kc =>
          rw [List.filterMap_cons, hc] at hnodup
          have hnodup' : (kc :: rest.filterMap imageKey?).Nodup := hnodup
          exact (List.nodup_cons.mp hnodup').2

theorem foldl_applySourceUpdate_id (d : String) (cat : List ImageRow) :
    ∀ (ops : List (String × String)),
      (∀ op ∈ ops, applySourceUpdate d cat op = cat) →
      ops.foldl (applySourceUpdate d) cat = cat := by
  intro ops
  induction ops with
  | nil => intro _; rfl
  | cons op rest ih =>
    intro h
    show rest.foldl (applySourceUpdate d) (applySourceUpdate d cat op) = cat
    rw [h op (List.mem_cons_self op rest)]
    exact ih (fun op2 hop2 => h op2 (List.mem_cons_of_mem op hop2))

theorem smithsonianRowAction_ok_fst (subs : List (String × List String))
    (fid uc : Option String) (op : String × String)
    (h : smithsonianRowAction subs (fid, uc) = .ok op) :
    op.1 = pyStrOfOpt fid := by
  unfold smithsonianRowAction at h
  cases hfind : subs.find? (fun sp =>
      match uc with
      | some u => sp.2.contains u
      | none => false) with
  | none => rw [hfind] at h; exact absurd h (by simp)
  | some sp =>
    rw [hfind] at h
    have h2 : (Except.ok (pyStrOfOpt fid, sp.1)
        : Except String (String × String)) = .ok op := h
    have h3 : (pyStrOfOpt fid, sp.1) = op := by injection h2
    rw [← h3]

/-- Smithsonian reclassification is idempotent on catalogs satisfying
the catalog invariants (non-null foreign identifiers, unique identity
keys): a successful pass leaves a catalog on which re-running the pass
succeeds without further change. -/
theorem updateSmithsonianSubProviders_idempotent
    (subs : List (String × List String)) (d : String)
    (cat cat' : List ImageRow)
    (hfid : ∀ r ∈ cat, r.foreign_id.isSome)
    (hkey : (cat.filterMap imageKey?).Nodup)
    (h : updateSmithsonianSubProviders subs d cat = .ok cat') :
    updateSmithsonianSubProviders subs d cat' = .ok cat' := by
  unfold updateSmithsonianSubProviders at h ⊢
  rw [runSourceUpdates_eq] at h
  cases hops : actionsOf (smithsonianRowAction subs)
      (smithsonianSelection d cat) with
  | error e =>
    rw [hops] at h
    exact absurd (show (Except.error e : Except String (List ImageRow))
      = .ok cat' from h) (by simp)
  | ok ops =>
    rw [hops] at h
    have h' : Except.ok (ops.foldl (applySourceUpdate d) cat)
        = (Except.ok cat' : Except String (List ImageRow)) := h
    have hcat : ops.foldl (applySourceUpdate d) cat = cat' := by injection h'
    have hcatmap : cat' = cat.map (fun r => ops.foldl (applyOpRow d) r) := by
      rw [← hcat, foldl_applySourceUpdate_eq_map]
    obtain ⟨hA1, hA2⟩ := actionsOf_ok_mem (smithsonianRowAction subs)
      (smithsonianSelection d cat) ops hops
    have hC2 : ∀ r ∈ cat, r.provider = some d →
        (ops.foldl (applyOpRow d) r).source = some d →
        r.source = some d ∧ ∃ f,
          r.foreign_id = some f ∧
          smithsonianRowAction subs (r.foreign_id, smithUnitCode r)
            = .ok (f, d) := by
      intro r hr hprov hsrc
      rw [foldl_applyOpRow_char] at hsrc
      have hsrc' : lastSrc d r ops = some d := hsrc
      obtain ⟨f, hf⟩ := Option.isSome_iff_exists.mp (hfid r hr)
      cases hfil : (ops.filter (fun op =>
          r.provider == some d && r.foreign_id == some op.1)).getLast? with
      | none =>
        exfalso
        have hrsrc : r.source = some d := by
          unfold lastSrc at hsrc'
          rw [hfil] at hsrc'
          exact hsrc'
        have hcond : (r.provider == some d && r.source == some d) = true := by
          simp [hprov, hrsrc]
        have hsel : (r.foreign_id, smithUnitCode r)
            ∈ smithsonianSelection d cat := by
          refine List.mem_filterMap.mpr ⟨r, hr, ?_⟩
          rw [if_pos hcond]
        obtain ⟨op, hopmem, hact⟩ := hA2 _ hsel
        have hop1 : op.1 = pyStrOfOpt r.foreign_id :=
          smithsonianRowAction_ok_fst subs r.foreign_id (smithUnitCode r) op hact
        have hmatchop : (r.provider == some d
            && r.foreign_id == some op.1) = true := by
          simp [hop1, hf, pyStrOfOpt, hprov]
        have hmemf : op ∈ ops.filter (fun op =>
            r.provider == some d && r.foreign_id == some op.1) :=
          List.mem_filter.mpr ⟨hopmem, hmatchop⟩
        rw [List.getLast?_eq_none_iff] at hfil
        rw [hfil] at hmemf
        exact List.not_mem_nil op hmemf
      | some opL =>
        have hs : some opL.2 = some d := by
          unfold lastSrc at hsrc'
          rw [hfil] at hsrc'
          exact hsrc'
        have hd : opL.2 = d := by injection hs
        have hmemfil := mem_of_getLast?_eq_some _ opL hfil
        obtain ⟨hopsmem, hmatch⟩ := List.mem_filter.mp hmemfil
        obtain ⟨en, henmem, hacten⟩ := hA1 opL hopsmem
        obtain ⟨q, hq, hSq⟩ := List.mem_filterMap.mp henmem
        by_cases hqc : (q.provider == some d && q.source == some d) = true
        · rw [if_pos hqc] at hSq
          have hen : (q.foreign_id, smithUnitCode q) = en :=
            Option.some_injective _ hSq
          subst hen
          have hqc' := hqc
          simp only [Bool.and_eq_true, beq_iff_eq] at hqc'
          obtain ⟨fq, hfq⟩ := Option.isSome_iff_exists.mp (hfid q hq)
          have hop1 : opL.1 = pyStrOfOpt q.foreign_id :=
            smithsonianRowAction_ok_fst subs q.foreign_id (smithUnitCode q) opL hacten
          have hop1' : opL.1 = fq := by rw [hop1, hfq]; rfl
          have hrfid : r.foreign_id = some opL.1 := by
            have hm := hmatch
            simp only [Bool.and_eq_true, beq_iff_eq] at hm
            exact hm.2
          have hkeyr : imageKey? r = some (d, opL.1) := by
            simp [imageKey?, hprov, hrfid]
          have hkeyq : imageKey? q = some (d, opL.1) := by
            rw [hop1']
            simp [imageKey?, hqc'.1, hfq]
          have hqr : q = r := eq_of_same_key cat hkey q hq r hr (d, opL.1) hkeyq hkeyr
          subst hqr
          refine ⟨hqc'.2, opL.1, hrfid, ?_⟩
          rw [← hd]
          exact hacten
        · rw [if_neg hqc] at hSq
          exact absurd hSq (by simp)
    have hsel' : smithsonianSelection d cat'
        = cat.filterMap (fun r =>
            if (ops.foldl (applyOpRow d) r).provider == some d
                && (ops.foldl (applyOpRow d) r).source == some d then
              some ((ops.foldl (applyOpRow d) r).foreign_id,
                smithUnitCode (ops.foldl (applyOpRow d) r))
            else none) := by
      rw [hcatmap]
      unfold smithsonianSelection
      exact List.filterMap_map _ _ _
    have hEn : ∀ en ∈ smithsonianSelection d cat', ∃ r ∈ cat,
        r.provider = some d ∧ (ops.foldl (applyOpRow d) r).source = some d
        ∧ en = (r.foreign_id, smithUnitCode r) := by
      intro en hen
      rw [hsel'] at hen
      obtain ⟨r, hr, hSr⟩ := List.mem_filterMap.mp hen
      obtain ⟨hp, hfi, _, hm⟩ := foldl_applyOpRow_fields d ops r
      by_cases hc : ((ops.foldl (applyOpRow d) r).provider == some d
          && (ops.foldl (applyOpRow d) r).source == some d) = true
      · rw [if_pos hc] at hSr
        have hc' := hc
        simp only [Bool.and_eq_true, beq_iff_eq] at hc'
        refine ⟨r, hr, ?_, hc'.2, ?_⟩
        · rw [← hp]; exact hc'.1
        · have huc : smithUnitCode (ops.foldl (applyOpRow d) r)
              = smithUnitCode r := by
            unfold smithUnitCode; rw [hm]
          have heq : ((ops.foldl (applyOpRow d) r).foreign_id,
              smithUnitCode (ops.foldl (applyOpRow d) r)) = en :=
            Option.some_injective _ hSr
          rw [← heq, hfi, huc]
      · rw [if_neg hc] at hSr
        exact absurd hSr (by simp)
    have hOk : ∀ en ∈ smithsonianSelection d cat', ∃ f,
        smithsonianRowAction subs en = .ok (f, d)
        ∧ ∃ r ∈ cat, r.provider = some d ∧ r.foreign_id = some f
          ∧ (ops.foldl (applyOpRow d) r).source = some d := by
      intro en hen
      obtain ⟨r, hr, hprov, hsrc, hen_eq⟩ := hEn en hen
      obtain ⟨hrsrc, f, hfr, hact⟩ := hC2 r hr hprov hsrc
      exact ⟨f, by rw [hen_eq]; exact hact, r, hr, hprov, hfr, hsrc⟩
    obtain ⟨ops', hops'⟩ := actionsOf_all_ok (smithsonianRowAction subs)
      (smithsonianSelection d cat')
      (fun en hen => by
        obtain ⟨f, hact, _⟩ := hOk en hen
        exact ⟨(f, d), hact⟩)
    rw [runSourceUpdates_eq, hops']
    show Except.ok (ops'.foldl (applySourceUpdate d) cat') = Except.ok cat'
    have hnoop : ∀ op' ∈ ops', applySourceUpdate d cat' op' = cat' := by
      intro op' hop'
      obtain ⟨hB1, _⟩ := actionsOf_ok_mem (smithsonianRowAction subs)
        (smithsonianSelection d cat') ops' hops'
      obtain ⟨en, hen, hacten⟩ := hB1 op' hop'
      obtain ⟨f, hact, r, hr, hrprov, hrfid, hrsrc'⟩ := hOk en hen
      have hop'eq : op' = (f, d) := by
        rw [hact] at hacten
        have h2 : (Except.ok (f, d) : Except String (String × String))
            = .ok op' := hacten
        have h3 : (f, d) = op' := by injection h2
        exact h3.symm
      subst hop'eq
      rw [applySourceUpdate_eq_map]
      have hid : ∀ x ∈ cat', applyOpRow d x (f, d) = x := by
        intro x hx
        cases hmx : (x.provider == some d && x.foreign_id == some (f, d).1) with
        | false => simp [applyOpRow, hmx]
        | true =>
          rw [hcatmap] at hx
          obtain ⟨q, hq, hqx⟩ := List.mem_map.mp hx
          have hmx' := hmx
          simp only [Bool.and_eq_true, beq_iff_eq] at hmx'
          obtain ⟨hxprov, hxfid⟩ := hmx'
          obtain ⟨hp, hfi, _, _⟩ := foldl_applyOpRow_fields d ops q
          have hqprov : q.provider = some d := by
            rw [← hp, hqx]; exact hxprov
          have hqfid : q.foreign_id = some f := by
            rw [← hfi, hqx]; exact hxfid
          have hkq : imageKey? q = some (d, f) := by
            simp [imageKey?, hqprov, hqfid]
          have hkr : imageKey? r = some (d, f) := by
            simp [imageKey?, hrprov, hrfid]
          have hqr : q = r := eq_of_same_key cat hkey q hq r hr (d, f) hkq hkr
          have hxsrc : x.source = some d := by
            rw [← hqx, hqr]; exact hrsrc'
          unfold applyOpRow
          rw [hmx, if_pos rfl]
          show ({ x with source := some d } : ImageRow) = x
          rw [← hxsrc]
      calc cat'.map (fun x => applyOpRow d x (f, d))
          = cat'.map id := List.map_congr_left (fun x hx => hid x hx)
        _ = cat' := List.map_id cat'
    rw [foldl_applySourceUpdate_id d cat' ops' hnoop]

/-- C8 (amended): all three reclassification passes are idempotent —
re-running a (successful) pass does not change the catalog further — but
only the smithsonian pass restricts its selection to rows whose `source`
still holds the default value.  The flickr and europeana passes select
by provider and creator-URL / metadata regardless of the current
`source` and deterministically recompute it from fields the pass never
modifies, which is what makes them idempotent; the smithsonian argument
additionally needs the catalog invariants that foreign identifiers are
non-null and identity keys unique. -/
theorem c8_reclassification_passes_idempotent :
    (∀ (tempTable : List (String × String)) (d : String) (cat : List ImageRow),
      updateFlickrSubProviders tempTable d (updateFlickrSubProviders tempTable d cat)
        = updateFlickrSubProviders tempTable d cat)
    ∧ (∀ (subProviders : List (String × String)) (d : String)
        (cat cat' : List ImageRow),
      updateEuropeanaSubProviders subProviders d cat = .ok cat' →
      updateEuropeanaSubProviders subProviders d cat' = .ok cat')
    ∧ (∀ (subProviders : List (String × List String)) (d : String)
        (cat cat' : List ImageRow),
      (∀ r ∈ cat, r.foreign_id.isSome) →
      ((cat.filterMap imageKey?).Nodup) →
      updateSmithsonianSubProviders subProviders d cat = .ok cat' →
      updateSmithsonianSubProviders subProviders d cat' = .ok cat') :=
  ⟨updateFlickrSubProviders_idempotent,
    updateEuropeanaSubProviders_idempotent,
    updateSmithsonianSubProviders_idempotent⟩

/-- C8 as stated is refuted: the flickr pass selects by provider and
creator URL only, so a row whose `source` is already reclassified
(`spacex`, not the default `flickr`) is still selected and overwritten
(to `nasa`), not left unchanged. -/
theorem c8_counterexample_flickr_overwrites_reclassified :
    (updateFlickrSubProviders [("https://www.flickr.com/photos/nasa", "nasa")]
        "flickr" [flickrReclassifiedRow]).map (fun r => r.source)
      = [some "nasa"]
    ∧ flickrReclassifiedRow.source = some "spacex"
    ∧ updateFlickrSubProviders [("https://www.flickr.com/photos/nasa", "nasa")]
        "flickr" [flickrReclassifiedRow] ≠ [flickrReclassifiedRow] := by
  decide

theorem c8_reclassification_passes_idempotent_witness :
    (updateFlickrSubProviders [("https://www.flickr.com/photos/bio", "bio")]
        "flickr" (updateFlickrSubProviders
          [("https://www.flickr.com/photos/bio", "bio")] "flickr" [flickrRowForC8])
      = updateFlickrSubProviders [("https://www.flickr.com/photos/bio", "bio")]
        "flickr" [flickrRowForC8])
    ∧ (updateEuropeanaSubProviders [("s1", "M1")] "europeana" [europeanaRowForC8]
        = .ok [{ europeanaRowForC8 with source := some "s1" }]
      ∧ updateEuropeanaSubProviders [("s1", "M1")] "europeana"
          [{ europeanaRowForC8 with source := some "s1" }]
        = .ok [{ europeanaRowForC8 with source := some "s1" }])
    ∧ ((∀ r ∈ [smithsonianRowForC8], r.foreign_id.isSome)
      ∧ (([smithsonianRowForC8].filterMap imageKey?).Nodup)
      ∧ updateSmithsonianSubProviders [("s", ["NMNH"])] "smithsonian"
          [smithsonianRowForC8]
        = .ok [{ smithsonianRowForC8 with source := some "s" }]
      ∧ updateSmithsonianSubProviders [("s", ["NMNH"])] "smithsonian"
          [{ smithsonianRowForC8 with source := some "s" }]
        = .ok [{ smithsonianRowForC8 with source := some "s" }]) :=
  ⟨c8_reclassification_passes_idempotent.1
      [("https://www.flickr.com/photos/bio", "bio")] "flickr" [flickrRowForC8],
    ⟨rfl,
      c8_reclassification_passes_idempotent.2.1 [("s1", "M1")] "europeana"
        [europeanaRowForC8] [{ europeanaRowForC8 with source := some "s1" }]
        rfl⟩,
    ⟨by decide, by decide, rfl,
      c8_reclassification_passes_idempotent.2.2 [("s", ["NMNH"])] "smithsonian"
        [smithsonianRowForC8] [{ smithsonianRowForC8 with source := some "s" }]
        (by decide) (by decide) rfl⟩⟩

/-! ## C1: jsonb algebra for upsert idempotence -/

mutual

theorem jsonbStripNulls_idem :
    ∀ (j : Jsonb), jsonbStripNulls (jsonbStripNulls j) = jsonbStripNulls j
  | .null => rfl
  | .bool b => rfl
  | .num n => rfl
  | .str s => rfl
  | .arr xs => by
    simp only [jsonbStripNulls]
    rw [stripArr_idem xs]
  | .obj kvs => by
    simp only [jsonbStripNulls]
    rw [stripObj_idem kvs]

theorem stripArr_idem :
    ∀ (xs : List Jsonb),
      jsonbStripNulls.stripArr (jsonbStripNulls.stripArr xs)
        = jsonbStripNulls.stripArr xs
  | [] => rfl
  | x :: xs => by
    simp only [jsonbStripNulls.stripArr]
    rw [jsonbStripNulls_idem x, stripArr_idem xs]

theorem stripObj_idem :
    ∀ (kvs : List (String × Jsonb)),
      jsonbStripNulls.stripObj (jsonbStripNulls.stripObj kvs)
        = jsonbStripNulls.stripObj kvs
  | [] => rfl
  | (k, .null) :: kvs => by
    simp only [jsonbStripNulls.stripObj]
    exact stripObj_idem kvs
  | (k, .bool b) :: kvs => by
    simp only [jsonbStripNulls.stripObj]
    rw [stripObj_idem kvs]
  | (k, .num n) :: kvs => by
    simp only [jsonbStripNulls.stripObj]
    rw [stripObj_idem kvs]
  | (k, .str s) :: kvs => by
    simp only [jsonbStripNulls.stripObj]
    rw [stripObj_idem kvs]
  | (k, .arr xs) :: kvs => by
    simp only [jsonbStripNulls.stripObj, jsonbStripNulls]
    rw [stripArr_idem xs, stripObj_idem kvs]
  | (k, .obj fs) :: kvs => by
    simp only [jsonbStripNulls.stripObj, jsonbStripNulls]
    rw [stripObj_idem fs, stripObj_idem kvs]

end

theorem stripObj_append (l1 l2 : List (String × Jsonb)) :
    jsonbStripNulls.stripObj (l1 ++ l2)
      = jsonbStripNulls.stripObj l1 ++ jsonbStripNulls.stripObj l2 := by
  induction l1 with
  | nil => rfl
  | cons kv rest ih =>
    match kv with
    | (k, v) =>
      cases v with
      | null =>
        simp only [List.cons_append, jsonbStripNulls.stripObj, List.append_eq]
        exact ih
      | bool b =>
        simp only [List.cons_append, jsonbStripNulls.stripObj, List.append_eq]
        rw [ih]
      | num n =>
        simp only [List.cons_append, jsonbStripNulls.stripObj, List.append_eq]
        rw [ih]
      | str s =>
        simp only [List.cons_append, jsonbStripNulls.stripObj, List.append_eq]
        rw [ih]
      | arr xs =>
        simp only [List.cons_append, jsonbStripNulls.stripObj, List.append_eq]
        rw [ih]
      | obj fs =>
        simp only [List.cons_append, jsonbStripNulls.stripObj, List.append_eq]
        rw [ih]

theorem stripObj_length_le (l : List (String × Jsonb)) :
    (jsonbStripNulls.stripObj l).length ≤ l.length := by
  induction l with
  | nil => exact Nat.le_refl 0
  | cons kv rest ih =>
    match kv with
    | (k, v) =>
      cases v with
      | null =>
        simp only [jsonbStripNulls.stripObj, List.length_cons]
        omega
      | bool b => simp only [jsonbStripNulls.stripObj, List.length_cons]; omega
      | num n => simp only [jsonbStripNulls.stripObj, List.length_cons]; omega
      | str s => simp only [jsonbStripNulls.stripObj, List.length_cons]; omega
      | arr xs => simp only [jsonbStripNulls.stripObj, List.length_cons]; omega
      | obj fs => simp only [jsonbStripNulls.stripObj, List.length_cons]; omega

theorem stripObj_fix_elems (l : List (String × Jsonb))
    (h : jsonbStripNulls.stripObj l = l) :
    ∀ kv ∈ l, kv.2 ≠ .null ∧ jsonbStripNulls kv.2 = kv.2 := by
  induction l with
  | nil => intro kv hkv; exact absurd hkv (List.not_mem_nil kv)
  | cons kv0 rest ih =>
    match kv0 with
    | (k, v) =>
      cases v with
      | null =>
        exfalso
        have hlen := stripObj_length_le rest
        have : (jsonbStripNulls.stripObj ((k, Jsonb.null) :: rest)).length
            = ((k, Jsonb.null) :: rest).length := by rw [h]
        simp only [jsonbStripNulls.stripObj, List.length_cons] at this
        omega
      | bool b =>
        simp only [jsonbStripNulls.stripObj] at h
        injection h with h1 h2
        injection h1 with hk hv
        intro kv hkv
        rcases List.mem_cons.mp hkv with rfl | hkv
        · exact ⟨by simp, hv⟩
        · exact ih h2 kv hkv
      | num n =>
        simp only [jsonbStripNulls.stripObj] at h
        injection h with h1 h2
        injection h1 with hk hv
        intro kv hkv
        rcases List.mem_cons.mp hkv with rfl | hkv
        · exact ⟨by simp, hv⟩
        · exact ih h2 kv hkv
      | str s =>
        simp only [jsonbStripNulls.stripObj] at h
        injection h with h1 h2
        injection h1 with hk hv
        intro kv hkv
        rcases List.mem_cons.mp hkv with rfl | hkv
        · exact ⟨by simp, hv⟩
        · exact ih h2 kv hkv
      | arr xs =>
        simp only [jsonbStripNulls.stripObj] at h
        injection h with h1 h2
        injection h1 with hk hv
        intro kv hkv
        rcases List.mem_cons.mp hkv with rfl | hkv
        · exact ⟨by simp, hv⟩
        · exact ih h2 kv hkv
      | obj fs =>
        simp only [jsonbStripNulls.stripObj] at h
        injection h with h1 h2
        injection h1 with hk hv
        intro kv hkv
        rcases List.mem_cons.mp hkv with rfl | hkv
        · exact ⟨by simp, hv⟩
        · exact ih h2 kv hkv

theorem stripObj_fix_of_elems (l : List (String × Jsonb))
    (h : ∀ kv ∈ l, kv.2 ≠ .null ∧ jsonbStripNulls kv.2 = kv.2) :
    jsonbStripNulls.stripObj l = l := by
  induction l with
  | nil => rfl
  | cons kv0 rest ih =>
    match kv0 with
    | (k, v) =>
      obtain ⟨hnn, hfix⟩ := h (k, v) (List.mem_cons_self (k, v) rest)
      have hrest := ih (fun kv hkv => h kv (List.mem_cons_of_mem (k, v) hkv))
      cases v with
      | null => exact absurd rfl hnn
      | bool b =>
        simp only [jsonbStripNulls.stripObj]
        have hfix' : jsonbStripNulls (Jsonb.bool b) = Jsonb.bool b := hfix
        rw [hfix', hrest]
      | num n =>
        simp only [jsonbStripNulls.stripObj]
        have hfix' : jsonbStripNulls (Jsonb.num n) = Jsonb.num n := hfix
        rw [hfix', hrest]
      | str s =>
        simp only [jsonbStripNulls.stripObj]
        have hfix' : jsonbStripNulls (Jsonb.str s) = Jsonb.str s := hfix
        rw [hfix', hrest]
      | arr xs =>
        simp only [jsonbStripNulls.stripObj]
        have hfix' : jsonbStripNulls (Jsonb.arr xs) = Jsonb.arr xs := hfix
        rw [hfix', hrest]
      | obj fs =>
        simp only [jsonbStripNulls.stripObj]
        have hfix' : jsonbStripNulls (Jsonb.obj fs) = Jsonb.obj fs := hfix
        rw [hfix', hrest]

theorem stripObj_filter_fix (l : List (String × Jsonb))
    (p : String × Jsonb → Bool) (h : jsonbStripNulls.stripObj l = l) :
    jsonbStripNulls.stripObj (l.filter p) = l.filter p :=
  stripObj_fix_of_elems (l.filter p)
    (fun kv hkv => stripObj_fix_elems l h kv (List.mem_filter.mp hkv).1)

theorem filter_not_any_self_nil (ys : List (String × Jsonb)) :
    ys.filter (fun kv => !(ys.any (fun kv2 => kv2.1 == kv.1))) = [] :=
  List.filter_eq_nil_iff.mpr (fun kv hkv => by
    have hany : ys.any (fun kv2 => kv2.1 == kv.1) = true :=
      List.any_eq_true.mpr ⟨kv, hkv, by simp⟩
    simp [hany])

theorem jsonbObjMerge_self (xs : List (String × Jsonb)) :
    jsonbObjMerge xs xs = xs := by
  unfold jsonbObjMerge
  rw [filter_not_any_self_nil xs]
  rfl

theorem jsonbObjMerge_absorb (xs ys : List (String × Jsonb)) :
    jsonbObjMerge (jsonbObjMerge xs ys) ys = jsonbObjMerge xs ys := by
  unfold jsonbObjMerge
  rw [List.filter_append, filter_not_any_self_nil ys, List.append_nil,
    List.filter_filter]
  have hpp : (fun kv : String × Jsonb =>
      !(ys.any (fun kv2 => kv2.1 == kv.1)) && !(ys.any (fun kv2 => kv2.1 == kv.1)))
      = (fun kv => !(ys.any (fun kv2 => kv2.1 == kv.1))) := by
    funext kv
    exact Bool.and_self _
  rw [hpp]

theorem stripObj_objMerge_fix (a b : List (String × Jsonb)) :
    jsonbStripNulls.stripObj
        (jsonbObjMerge (jsonbStripNulls.stripObj a) (jsonbStripNulls.stripObj b))
      = jsonbObjMerge (jsonbStripNulls.stripObj a) (jsonbStripNulls.stripObj b) := by
  unfold jsonbObjMerge
  rw [stripObj_append, stripObj_filter_fix _ _ (stripObj_idem a), stripObj_idem b]

theorem pgDistinctAux_nil_of_sub :
    ∀ (Y seen : List Jsonb), (∀ y ∈ Y, y ∈ seen) → pgDistinctAux seen Y = [] := by
  intro Y
  induction Y with
  | nil => intro seen _; rfl
  | cons y ys ih =>
    intro seen h
    have hy : y ∈ seen := h y (List.mem_cons_self y ys)
    simp only [pgDistinctAux, hy, if_true]
    exact ih seen (fun z hz => h z (List.mem_cons_of_mem y hz))

theorem pgDistinctAux_absorb :
    ∀ (X Y seen : List Jsonb), (∀ y ∈ Y, y ∈ X ∨ y ∈ seen) →
      pgDistinctAux seen (X ++ Y) = pgDistinctAux seen X := by
  intro X
  induction X with
  | nil =>
    intro Y seen h
    simp only [List.nil_append, pgDistinctAux]
    exact pgDistinctAux_nil_of_sub Y seen
      (fun y hy => (h y hy).elim (fun hc => absurd hc (List.not_mem_nil y)) id)
  | cons x xs ih =>
    intro Y seen h
    simp only [List.cons_append, pgDistinctAux]
    by_cases hx : x ∈ seen
    · simp only [hx, if_true]
      exact ih Y seen (fun y hy => (h y hy).elim
        (fun hc => (List.mem_cons.mp hc).elim (fun he => Or.inr (he ▸ hx)) Or.inl)
        Or.inr)
    · simp only [hx, if_false]
      exact congrArg (List.cons x) (ih Y (x :: seen) (fun y hy => (h y hy).elim
        (fun hc => (List.mem_cons.mp hc).elim
          (fun he => Or.inr (he ▸ List.mem_cons_self x seen)) Or.inl)
        (fun hs => Or.inr (List.mem_cons_of_mem x hs))))

theorem pgDistinctAux_idem :
    ∀ (l seen : List Jsonb),
      pgDistinctAux seen (pgDistinctAux seen l) = pgDistinctAux seen l := by
  intro l
  induction l with
  | nil => intro seen; rfl
  | cons x xs ih =>
    intro seen
    by_cases hx : x ∈ seen
    · simp only [pgDistinctAux, hx, if_true]
      exact ih seen
    · simp only [pgDistinctAux, hx, if_false]
      rw [ih (x :: seen)]

theorem pgDistinct_append_absorb (X Y : List Jsonb) (h : ∀ y ∈ Y, y ∈ X) :
    pgDistinct (X ++ Y) = pgDistinct X :=
  pgDistinctAux_absorb X Y [] (fun y hy => Or.inl (h y hy))

theorem pgDistinct_idem (l : List Jsonb) :
    pgDistinct (pgDistinct l) = pgDistinct l :=
  pgDistinctAux_idem l []

theorem pgDistinct_cons_ne_nil (z : Jsonb) (zs : List Jsonb) :
    pgDistinct (z :: zs) ≠ [] := by
  simp only [pgDistinct, pgDistinctAux, List.not_mem_nil, if_false]
  exact List.cons_ne_nil z _

/-! merge-expression stability -/

theorem sqlCoalesce_absorb (a b : Option α) :
    sqlCoalesce a (sqlCoalesce a b) = sqlCoalesce a b := by
  cases a <;> rfl

theorem sqlCoalesce_self (a : Option α) : sqlCoalesce a a = a := by
  cases a <;> rfl

theorem mergeJsonbObjects_none_right (a : Option Jsonb) :
    mergeJsonbObjects a none = a := by
  cases a <;> rfl

theorem mergeJsonbArrays_none_right (a : Option (List Jsonb)) :
    mergeJsonbArrays a none = a := by
  cases a <;> rfl

theorem mergeJsonbObjects_stable (mo mn : Option Jsonb)
    (ho : metaObjOrNull mo = true) (hn : metaObjNullFree mn = true) :
    mergeJsonbObjects (mergeJsonbObjects mo mn) mn = mergeJsonbObjects mo mn := by
  cases mn with
  | none => rw [mergeJsonbObjects_none_right, mergeJsonbObjects_none_right]
  | some n =>
    cases n with
    | obj nkvs =>
      have hnfix : jsonbStripNulls.stripObj nkvs = nkvs := by
        have := hn
        simp only [metaObjNullFree, beq_iff_eq] at this
        exact this
      cases mo with
      | none =>
        show mergeJsonbObjects (some (.obj nkvs)) (some (.obj nkvs)) = _
        simp only [mergeJsonbObjects, jsonbStripNulls, hnfix, jsonbConcat]
        rw [jsonbObjMerge_self]
      | some o =>
        cases o with
        | obj okvs =>
          show mergeJsonbObjects
              (some (jsonbConcat (jsonbStripNulls (.obj okvs))
                (jsonbStripNulls (.obj nkvs)))) (some (.obj nkvs)) = _
          simp only [jsonbStripNulls, jsonbConcat, mergeJsonbObjects]
          rw [show jsonbStripNulls.stripObj
              (jsonbObjMerge (jsonbStripNulls.stripObj okvs)
                (jsonbStripNulls.stripObj nkvs))
              = jsonbObjMerge (jsonbStripNulls.stripObj okvs)
                (jsonbStripNulls.stripObj nkvs) from stripObj_objMerge_fix okvs nkvs]
          rw [jsonbObjMerge_absorb]
        | null => simp [metaObjOrNull] at ho
        | bool b => simp [metaObjOrNull] at ho
        | num n => simp [metaObjOrNull] at ho
        | str s => simp [metaObjOrNull] at ho
        | arr xs => simp [metaObjOrNull] at ho
    | null => simp [metaObjNullFree] at hn
    | bool b => simp [metaObjNullFree] at hn
    | num n2 => simp [metaObjNullFree] at hn
    | str s => simp [metaObjNullFree] at hn
    | arr xs => simp [metaObjNullFree] at hn

theorem mergeJsonbObjects_self_clean (mn : Option Jsonb)
    (hn : metaObjNullFree mn = true) :
    mergeJsonbObjects mn mn = mn := by
  cases mn with
  | none => rfl
  | some n =>
    cases n with
    | obj nkvs =>
      have hnfix : jsonbStripNulls.stripObj nkvs = nkvs := by
        have := hn
        simp only [metaObjNullFree, beq_iff_eq] at this
        exact this
      simp only [mergeJsonbObjects, jsonbStripNulls, hnfix, jsonbConcat]
      rw [jsonbObjMerge_self]
    | null => simp [metaObjNullFree] at hn
    | bool b => simp [metaObjNullFree] at hn
    | num n2 => simp [metaObjNullFree] at hn
    | str s => simp [metaObjNullFree] at hn
    | arr xs => simp [metaObjNullFree] at hn

theorem mergeJsonbArrays_stable (to2 tn : Option (List Jsonb))
    (hn : tagsDistinct tn = true) :
    mergeJsonbArrays (mergeJsonbArrays to2 tn) tn = mergeJsonbArrays to2 tn := by
  cases tn with
  | none => rw [mergeJsonbArrays_none_right, mergeJsonbArrays_none_right]
  | some n =>
    have hnfix : pgDistinct n = n := by
      have := hn
      simp only [tagsDistinct, beq_iff_eq] at this
      exact this
    cases to2 with
    | none =>
      show mergeJsonbArrays (some n) (some n) = some n
      cases n with
      | nil => rfl
      | cons z zs =>
        have hself : mergeJsonbArrays (some (z :: zs)) (some (z :: zs))
            = some (pgDistinct ((z :: zs) ++ (z :: zs))) := rfl
        rw [hself]
        exact congrArg some
          ((pgDistinct_append_absorb _ _ (fun y hy => hy)).trans hnfix)
    | some o =>
      have hmm : mergeJsonbArrays (some o) (some n)
          = match o ++ n with
            | [] => some n
            | x :: xs => some (pgDistinct (x :: xs)) := rfl
      cases hc : o ++ n with
      | nil =>
        have ho : o = [] := (List.append_eq_nil.mp hc).1
        have hn2 : n = [] := (List.append_eq_nil.mp hc).2
        subst ho; subst hn2
        rfl
      | cons z zs =>
        have hRHS : mergeJsonbArrays (some o) (some n)
            = some (pgDistinct (z :: zs)) := by rw [hmm, hc]
        rw [hRHS]
        have hD : pgDistinct (z :: zs) = pgDistinct (o ++ n) := by rw [hc]
        have hsub : ∀ y ∈ n, y ∈ pgDistinct (z :: zs) := by
          intro y hy
          rw [hD, mem_pgDistinct]
          exact List.mem_append_right o hy
        cases hDz : pgDistinct (z :: zs) with
        | nil => exact absurd hDz (pgDistinct_cons_ne_nil z zs)
        | cons w ws =>
          have hgoal : mergeJsonbArrays (some (w :: ws)) (some n)
              = some (pgDistinct ((w :: ws) ++ n)) := rfl
          rw [hgoal]
          refine congrArg some ?_
          calc pgDistinct ((w :: ws) ++ n)
              = pgDistinct (w :: ws) :=
                pgDistinct_append_absorb _ _ (fun y hy => hDz ▸ hsub y hy)
            _ = pgDistinct (pgDistinct (z :: zs)) := by rw [hDz]
            _ = pgDistinct (z :: zs) := pgDistinct_idem _
            _ = w :: ws := hDz

theorem mergeJsonbArrays_self_clean (tn : Option (List Jsonb))
    (hn : tagsDistinct tn = true) :
    mergeJsonbArrays tn tn = tn := by
  cases tn with
  | none => rfl
  | some n =>
    have hnfix : pgDistinct n = n := by
      have := hn
      simp only [tagsDistinct, beq_iff_eq] at this
      exact this
    cases n with
    | nil => rfl
    | cons z zs =>
      have hself : mergeJsonbArrays (some (z :: zs)) (some (z :: zs))
          = some (pgDistinct ((z :: zs) ++ (z :: zs))) := rfl
      rw [hself]
      exact congrArg some
        ((pgDistinct_append_absorb _ _ (fun y hy => hy)).trans hnfix)

/-- A catalog row re-merged with the same staging row changes only its
`updated_on` and `last_synced` timestamps, provided the row was itself
produced by merging that staging row into a wellformed catalog row. -/
theorem scrub_merge_merge (now m : Nat) (old : ImageRow) (b : LoadRow)
    (hold : metaObjOrNull old.meta_data = true)
    (hb : cleanLoadRow b = true) :
    scrub (mergeImageRow m (mergeImageRow now old b) b)
      = scrub (mergeImageRow now old b) := by
  have hb' := hb
  simp only [cleanLoadRow, Bool.and_eq_true] at hb'
  obtain ⟨⟨hkey, hmeta⟩, htags⟩ := hb'
  unfold scrub mergeImageRow newestNonNull
  dsimp only
  congr 1
  · exact sqlCoalesce_absorb _ _
  · exact sqlCoalesce_absorb _ _
  · exact sqlCoalesce_absorb _ _
  · exact sqlCoalesce_absorb _ _
  · exact sqlCoalesce_absorb _ _
  · exact sqlCoalesce_absorb _ _
  · exact sqlCoalesce_absorb _ _
  · exact sqlCoalesce_absorb _ _
  · exact sqlCoalesce_absorb _ _
  · exact sqlCoalesce_absorb _ _
  · exact sqlCoalesce_absorb _ _
  · exact sqlCoalesce_absorb _ _
  · exact sqlCoalesce_absorb _ _
  · exact mergeJsonbObjects_stable old.meta_data b.meta_data hold hmeta
  · exact mergeJsonbArrays_stable old.tags b.tags htags
  · exact sqlCoalesce_absorb _ _

/-- A freshly inserted staging row merged with itself changes only the
timestamps. -/
theorem scrub_merge_insert (now m : Nat) (b : LoadRow)
    (hb : cleanLoadRow b = true) :
    scrub (mergeImageRow m (insertImageRow now b) b)
      = scrub (insertImageRow now b) := by
  have hb' := hb
  simp only [cleanLoadRow, Bool.and_eq_true] at hb'
  obtain ⟨⟨hkey, hmeta⟩, htags⟩ := hb'
  unfold scrub mergeImageRow insertImageRow newestNonNull
  dsimp only
  congr 1
  · exact sqlCoalesce_self _
  · exact sqlCoalesce_self _
  · exact sqlCoalesce_self _
  · exact sqlCoalesce_self _
  · exact sqlCoalesce_self _
  · exact sqlCoalesce_self _
  · exact sqlCoalesce_self _
  · exact sqlCoalesce_self _
  · exact sqlCoalesce_self _
  · exact sqlCoalesce_self _
  · exact sqlCoalesce_self _
  · exact sqlCoalesce_self _
  · exact sqlCoalesce_self _
  · exact mergeJsonbObjects_self_clean b.meta_data hmeta
  · exact mergeJsonbArrays_self_clean b.tags htags
  · exact sqlCoalesce_self _

theorem conflicts_key_eq (r : ImageRow) (b : LoadRow)
    (h : conflictsWith r b = true) :
    ∃ k, imageKey? r = some k ∧ loadKey? b = some k := by
  unfold conflictsWith at h
  cases hik : imageKey? r with
  | none =>
    rw [hik] at h
    cases hlk : loadKey? b <;> rw [hlk] at h <;> simp at h
  | some k1 =>
    cases hlk : loadKey? b with
    | none => rw [hik, hlk] at h; simp at h
    | some k2 =>
      rw [hik, hlk] at h
      exact ⟨k1, rfl, congrArg some (beq_iff_eq.mp h).symm⟩

theorem conflicts_of_keys (r : ImageRow) (b : LoadRow) (k : String × String)
    (h1 : imageKey? r = some k) (h2 : loadKey? b = some k) :
    conflictsWith r b = true := by
  unfold conflictsWith
  rw [h1, h2]
  simp

theorem conflicts_unique (r : ImageRow) (b b' : LoadRow)
    (hb : conflictsWith r b = true) (hb' : conflictsWith r b' = true) :
    loadKey? b = loadKey? b' := by
  obtain ⟨k, hik, hlk⟩ := conflicts_key_eq r b hb
  obtain ⟨k2, hik2, hlk2⟩ := conflicts_key_eq r b' hb'
  rw [hik] at hik2
  rw [hlk, hlk2]
  exact hik2

theorem metaObjOrNull_of_nullFree (m : Option Jsonb)
    (h : metaObjNullFree m = true) : metaObjOrNull m = true := by
  cases m with
  | none => rfl
  | some j => cases j <;> simp_all [metaObjNullFree, metaObjOrNull]

theorem mergeJsonbObjects_objOrNull (mo mn : Option Jsonb)
    (ho : metaObjOrNull mo = true) (hn : metaObjNullFree mn = true) :
    metaObjOrNull (mergeJsonbObjects mo mn) = true := by
  cases mn with
  | none => rw [mergeJsonbObjects_none_right]; exact ho
  | some n =>
    cases n with
    | obj nkvs =>
      cases mo with
      | none => rfl
      | some o =>
        cases o with
        | obj okvs => rfl
        | null => simp [metaObjOrNull] at ho
        | bool b => simp [metaObjOrNull] at ho
        | num n2 => simp [metaObjOrNull] at ho
        | str s => simp [metaObjOrNull] at ho
        | arr xs => simp [metaObjOrNull] at ho
    | null => simp [metaObjNullFree] at hn
    | bool b => simp [metaObjNullFree] at hn
    | num n2 => simp [metaObjNullFree] at hn
    | str s => simp [metaObjNullFree] at hn
    | arr xs => simp [metaObjNullFree] at hn

theorem upsertRow_metaOK (now : Nat) (cat : List ImageRow) (b : LoadRow)
    (hcat : ∀ r ∈ cat, metaObjOrNull r.meta_data = true)
    (hb : cleanLoadRow b = true) :
    ∀ r ∈ upsertRow now cat b, metaObjOrNull r.meta_data = true := by
  have hb' := hb
  simp only [cleanLoadRow, Bool.and_eq_true] at hb'
  obtain ⟨⟨_, hmeta⟩, _⟩ := hb'
  intro r hr
  unfold upsertRow at hr
  split at hr
  · obtain ⟨q, hq, hq2⟩ := List.mem_map.mp hr
    by_cases hcc : conflictsWith q b = true
    · rw [if_pos hcc] at hq2
      rw [← hq2]
      exact mergeJsonbObjects_objOrNull q.meta_data b.meta_data (hcat q hq) hmeta
    · rw [if_neg hcc] at hq2
      rw [← hq2]
      exact hcat q hq
  · rcases List.mem_append.mp hr with hr | hr
    · exact hcat r hr
    · have heq : r = insertImageRow now b := List.mem_singleton.mp hr
      rw [heq]
      exact metaObjOrNull_of_nullFree b.meta_data hmeta

theorem sat_preserved (now : Nat) (b : LoadRow) :
    ∀ (rest : List LoadRow) (cat : List ImageRow),
      Sat cat b →
      (∀ b' ∈ rest, loadKey? b' ≠ loadKey? b) →
      Sat (upsertRecordsToImageTable now cat rest) b := by
  intro rest
  induction rest with
  | nil => intro cat hsat _; exact hsat
  | cons b' rest' ih =>
    intro cat hsat hne
    show Sat (upsertRecordsToImageTable now (upsertRow now cat b') rest') b
    apply ih (upsertRow now cat b')
    · obtain ⟨⟨r0, hr0, hc0⟩, hstab⟩ := hsat
      have hbne : loadKey? b' ≠ loadKey? b := hne b' (List.mem_cons_self b' rest')
      unfold upsertRow
      split
      · constructor
        · refine ⟨if conflictsWith r0 b' = true then mergeImageRow now r0 b' else r0,
            List.mem_map.mpr ⟨r0, hr0, rfl⟩, ?_⟩
          by_cases hcc : conflictsWith r0 b' = true
          · rw [if_pos hcc]; exact hc0
          · rw [if_neg hcc]; exact hc0
        · intro r1 hr1 hcb
          obtain ⟨q, hq, hq2⟩ := List.mem_map.mp hr1
          by_cases hcc : conflictsWith q b' = true
          · exfalso
            rw [if_pos hcc] at hq2
            rw [← hq2] at hcb
            have hqb : conflictsWith q b = true := hcb
            exact hbne (conflicts_unique q b' b hcc hqb)
          · rw [if_neg hcc] at hq2
            rw [← hq2] at hcb ⊢
            exact hstab q hq hcb
      · constructor
        · exact ⟨r0, List.mem_append_left _ hr0, hc0⟩
        · intro r1 hr1 hcb
          rcases List.mem_append.mp hr1 with hr1 | hr1
          · exact hstab r1 hr1 hcb
          · exfalso
            have heq : r1 = insertImageRow now b' := List.mem_singleton.mp hr1
            rw [heq] at hcb
            obtain ⟨k, hik, hlk⟩ := conflicts_key_eq _ b hcb
            have hik' : loadKey? b' = some k := hik
            exact hbne (by rw [hik', hlk])
    · exact fun b2 hb2 => hne b2 (List.mem_cons_of_mem b' hb2)

theorem run1_sat (now : Nat) :
    ∀ (batch : List LoadRow) (cat : List ImageRow),
      (∀ b ∈ batch, cleanLoadRow b = true) →
      batch.Pairwise (fun a c => loadKey? a ≠ loadKey? c) →
      (∀ r ∈ cat, metaObjOrNull r.meta_data = true) →
      ∀ b ∈ batch, Sat (upsertRecordsToImageTable now cat batch) b := by
  intro batch
  induction batch with
  | nil => intro cat _ _ _ b hb; exact absurd hb (List.not_mem_nil b)
  | cons b0 rest ih =>
    intro cat hclean hpair hmeta b hb
    have hp := List.pairwise_cons.mp hpair
    show Sat (upsertRecordsToImageTable now (upsertRow now cat b0) rest) b
    rcases List.mem_cons.mp hb with rfl | hb
    · apply sat_preserved now b rest (upsertRow now cat b)
      · have hcb : cleanLoadRow b = true := hclean b (List.mem_cons_self b rest)
        have hkey : (loadKey? b).isSome = true := by
          have := hcb
          simp only [cleanLoadRow, Bool.and_eq_true] at this
          exact this.1.1
        obtain ⟨k, hk⟩ := Option.isSome_iff_exists.mp hkey
        unfold upsertRow
        split
        case isTrue hany =>
          constructor
          · obtain ⟨r0, hr0, hc0⟩ := List.any_eq_true.mp hany
            refine ⟨if conflictsWith r0 b = true then mergeImageRow now r0 b else r0,
              List.mem_map.mpr ⟨r0, hr0, rfl⟩, ?_⟩
            rw [if_pos hc0]
            exact hc0
          · intro r1 hr1 hcb1
            obtain ⟨q, hq, hq2⟩ := List.mem_map.mp hr1
            by_cases hcc : conflictsWith q b = true
            · rw [if_pos hcc] at hq2
              rw [← hq2]
              intro m
              exact scrub_merge_merge now m q b (hmeta q hq) hcb
            · exfalso
              rw [if_neg hcc] at hq2
              rw [← hq2] at hcb1
              exact hcc hcb1
        case isFalse hnone =>
          constructor
          · refine ⟨insertImageRow now b,
              List.mem_append_right _ (List.mem_singleton.mpr rfl), ?_⟩
            refine conflicts_of_keys _ b k ?_ hk
            exact hk
          · intro r1 hr1 hcb1
            rcases List.mem_append.mp hr1 with hr1 | hr1
            · exact absurd (List.any_eq_true.mpr ⟨r1, hr1, hcb1⟩) hnone
            · have heq : r1 = insertImageRow now b := List.mem_singleton.mp hr1
              rw [heq]
              intro m
              exact scrub_merge_insert now m b hcb
      · exact fun b' hb' he => hp.1 b' hb' he.symm
    · refine ih (upsertRow now cat b0)
        (fun b2 hb2 => hclean b2 (List.mem_cons_of_mem b0 hb2)) hp.2
        (upsertRow_metaOK now cat b0 hmeta
          (hclean b0 (List.mem_cons_self b0 rest))) b hb

theorem run2_scrub (now2 : Nat) :
    ∀ (batch : List LoadRow) (cat : List ImageRow),
      (∀ b ∈ batch, Sat cat b) →
      batch.Pairwise (fun a c => loadKey? a ≠ loadKey? c) →
      (upsertRecordsToImageTable now2 cat batch).map scrub = cat.map scrub := by
  intro batch
  induction batch with
  | nil => intro cat _ _; rfl
  | cons b0 rest ih =>
    intro cat hsat hpair
    have hp := List.pairwise_cons.mp hpair
    obtain ⟨⟨r0, hr0, hc0⟩, hstab⟩ := hsat b0 (List.mem_cons_self b0 rest)
    have hany : cat.any (fun r => conflictsWith r b0) = true :=
      List.any_eq_true.mpr ⟨r0, hr0, hc0⟩
    have hup : upsertRow now2 cat b0
        = cat.map (fun r =>
            if conflictsWith r b0 = true then mergeImageRow now2 r b0 else r) := by
      unfold upsertRow
      rw [if_pos hany]
    have hscrub : (cat.map (fun r =>
        if conflictsWith r b0 = true then mergeImageRow now2 r b0 else r)).map scrub
        = cat.map scrub := by
      rw [List.map_map]
      apply List.map_congr_left
      intro r hr
      show scrub (if conflictsWith r b0 = true then mergeImageRow now2 r b0 else r)
        = scrub r
      by_cases hcc : conflictsWith r b0 = true
      · rw [if_pos hcc]
        exact hstab r hr hcc now2
      · rw [if_neg hcc]
    have hsat' : ∀ b ∈ rest, Sat (cat.map (fun r =>
        if conflictsWith r b0 = true then mergeImageRow now2 r b0 else r)) b := by
      intro b hbmem
      obtain ⟨⟨r1, hr1, hc1⟩, hstab1⟩ := hsat b (List.mem_cons_of_mem b0 hbmem)
      constructor
      · refine ⟨_, List.mem_map.mpr ⟨r1, hr1, rfl⟩, ?_⟩
        by_cases hcc : conflictsWith r1 b0 = true
        · rw [if_pos hcc]; exact hc1
        · rw [if_neg hcc]; exact hc1
      · intro r2 hr2 hc2
        obtain ⟨q, hq, hq2⟩ := List.mem_map.mp hr2
        by_cases hcc : conflictsWith q b0 = true
        · exfalso
          rw [if_pos hcc] at hq2
          rw [← hq2] at hc2
          have hqb : conflictsWith q b = true := hc2
          exact hp.1 b hbmem (conflicts_unique q b0 b hcc hqb)
        · rw [if_neg hcc] at hq2
          rw [← hq2] at hc2 ⊢
          exact hstab1 q hq hc2
    show (upsertRecordsToImageTable now2 (upsertRow now2 cat b0) rest).map scrub
      = cat.map scrub
    rw [hup, ih _ hsat' hp.2]
    exact hscrub

/-- C1 (amended): upserting the same staging batch twice leaves every
field of the catalog except `updated_on`/`last_synced` unchanged, with
the `tags` column unchanged as a *set* of jsonb values — the
`jsonb_agg(DISTINCT ...)` merge preserves exactly the element set of
the tags array while emitting it in a sort order of its own, so the set
is the invariant the program guarantees for that one column — PROVIDED
the batch rows are clean in the sense the staging cleaner and
normalizer guarantee (non-null identity key, metadata a null-free
object or absent, duplicate-free tags), with pairwise-distinct identity
keys within the batch, and every pre-existing catalog metadata value an
object or NULL.  Unconditionally the claim is false: the INSERT branch
stores duplicate tags (or null-valued metadata keys) verbatim and the
second run's merge normalizes them, changing the `tags`/`meta_data`
contents (see the counterexample). -/
theorem c1_amended_upsert_idempotent (now1 now2 : Nat)
    (cat : List ImageRow) (batch : List LoadRow)
    (hclean : ∀ b ∈ batch, cleanLoadRow b = true)
    (hkeys : batch.Pairwise (fun a c => loadKey? a ≠ loadKey? c))
    (hmeta : ∀ r ∈ cat, metaObjOrNull r.meta_data = true) :
    (upsertRecordsToImageTable now2
        (upsertRecordsToImageTable now1 cat batch) batch).map scrubView
      = (upsertRecordsToImageTable now1 cat batch).map scrubView := by
  have h := run2_scrub now2 batch (upsertRecordsToImageTable now1 cat batch)
    (fun b hb => run1_sat now1 batch cat hclean hkeys hmeta b hb) hkeys
  have hfac : ∀ l : List ImageRow,
      l.map scrubView = (l.map scrub).map (fun x =>
        ({ x with tags := none }, Option.map List.toFinset x.tags)) := by
    intro l
    rw [List.map_map]
    exact List.map_congr_left (fun r _ => rfl)
  rw [hfac, hfac, h]

/-- Counterexample to C1 as stated: a batch row whose `tags` array holds
a duplicate element is inserted verbatim by the first run, and the
second run's `jsonb_agg(DISTINCT ...)` merge collapses the duplicate,
so the `tags` field (not a timestamp) changes on the second run. -/
theorem c1_counterexample_duplicate_tags :
    ¬ ((upsertRecordsToImageTable 2
          (upsertRecordsToImageTable 1 [] [loadRowDupTags])
          [loadRowDupTags]).map scrub
        = (upsertRecordsToImageTable 1 [] [loadRowDupTags]).map scrub) := by
  decide

/-- A concrete run of the amended C1 theorem: one clean staging row
merged twice into a one-row catalog with matching key, all hypotheses
checked by evaluation. -/
theorem c1_amended_upsert_idempotent_witness :
    ((∀ b ∈ [loadRowForC1], cleanLoadRow b = true)
      ∧ List.Pairwise (fun a c => loadKey? a ≠ loadKey? c) [loadRowForC1]
      ∧ (∀ r ∈ [imageRowForC1], metaObjOrNull r.meta_data = true))
    ∧ (upsertRecordsToImageTable 2
          (upsertRecordsToImageTable 1 [imageRowForC1] [loadRowForC1])
          [loadRowForC1]).map scrubView
        = (upsertRecordsToImageTable 1 [imageRowForC1] [loadRowForC1]).map scrubView :=
  ⟨⟨by decide, by simp, by decide⟩,
    c1_amended_upsert_idempotent 1 2 [imageRowForC1] [loadRowForC1]
      (by decide) (by simp) (by decide)⟩

end CcCatalog
